import Mathlib

/-!
# Snake-3D: the game simulation of `src/main.cpp`

A shallow embedding of the simulation core of the game (movement, growth,
collision detection, apple placement, input handling) and the properties of
it that the specification states.

Modelling conventions.

* A C++ `float` is modelled by the rational number it holds; every
  arithmetic operation of the code that can round is followed by `f32`,
  rounding to the nearest binary32 value with ties to even (IEEE 754, no
  extended precision, no fused multiply-add).  NaN and the infinities are not modelled: overflow
  needs magnitudes above 2^127, far outside the game.
* `sqrt` is correctly rounded, so `sqrt(v) < c` holds exactly when the exact
  root is below the midpoint of `c` and the binary32 value before it
  (`sqrtLt`, `sqrtLt_iff_real`); a tie cannot occur for a binary32 `v`.
* On the unit grid of the specification's data model (integers for snake
  segments, integers plus one half for apples, of moderate magnitude) no
  operation rounds and the float tests are the exact ones (`distLt_grid`).
* The globals `gameState, currentDir, snake, apples, score, highScore` are the
  fields of the record `Game`; every function takes the record and returns
  the updated one.
* `rand()` is modelled by the infinite sequence of its future results,
  `Rand`; a function that calls `rand()` takes the sequence and returns the
  part it has not consumed.
* `int` scores are mathematical integers.  `score++` is modelled as `+ 1`,
  which is what the code does below `INT_MAX`; at `INT_MAX` the increment is
  undefined behaviour in C++, so a theorem about the increment assumes
  `score < INT_MAX`.
* `snake[0]` on an empty vector is undefined behaviour: `moveSnake` (and so
  `update`) returns `none` there.
* `printf`, rendering and timer re-arming have no effect on the simulation
  state and are left out.
-/

namespace Snake3D

/-! ## Data model (main.cpp lines 15-38) -/

/-- A snake segment: position on the ground plane. -/
structure Segment where
  x : ℚ
  z : ℚ
deriving DecidableEq

/-- An apple: position and activeness flag. -/
structure Apple where
  x : ℚ
  z : ℚ
  active : Bool
deriving DecidableEq

/-- The game states. -/
inductive GameState where
  | PLAYING
  | GAME_OVER
deriving DecidableEq

/-- The headings of the snake. -/
inductive Direction where
  | UP
  | DOWN
  | LEFT
  | RIGHT
deriving DecidableEq

/-- Constant `MAX_APPLES = 3`. -/
def MAX_APPLES : Nat := 3

/-- The global variables of the simulation. -/
structure Game where
  gameState : GameState
  currentDir : Direction
  snake : List Segment
  apples : List Apple
  score : Int
  highScore : Int
deriving DecidableEq

/-- The initial snake `{{0, 0}, {0, 1}, {0, 2}}`. -/
def initialSnake : List Segment := [⟨0, 0⟩, ⟨0, 1⟩, ⟨0, 2⟩]

/-- The values of the globals at program start (before `init()` runs). -/
def initialGlobals : Game :=
  { gameState := GameState.PLAYING, currentDir := Direction.UP, snake := initialSnake,
    apples := [], score := 0, highScore := 0 }

/-- The future results of `rand()`, each a non-negative integer. -/
abbrev Rand := Nat → Nat

/-- The sequence after `n` calls of `rand()`. -/
def Rand.after (r : Rand) (n : Nat) : Rand := fun i => r (i + n)

/-! ## binary32 arithmetic -/

/-- Exponent of the unit in the last place of the binary32 values around `q`:
23 below the binade of `q`, and -149 in the subnormal range. -/
def ulpExp (q : ℚ) : Int := max (Int.log 2 |q| - 23) (-149)

/-- Round to the nearest binary32 value, ties to even: the result of storing
the exact value `q` into a `float`. -/
def f32 (q : ℚ) : ℚ :=
  let u : ℚ := (2 : ℚ) ^ ulpExp q
  let t : ℚ := q / u
  let f : Int := ⌊t⌋
  let n : Int := if t - f < 1 / 2 then f else if 1 / 2 < t - f then f + 1
                 else if f % 2 = 0 then f else f + 1
  n * u

/-- Distance from a positive binary32 value `c` to the binary32 value before
it. -/
def ulpBelow (c : ℚ) : ℚ :=
  if c = (2 : ℚ) ^ Int.log 2 c then (2 : ℚ) ^ (max (Int.log 2 c - 24) (-149))
  else (2 : ℚ) ^ ulpExp c

/-- The test `sqrt(v) < c` for binary32 `v ≥ 0` and `c > 0`: the correctly
rounded root is below `c` exactly when `v` is below the square of the midpoint
of `c` and the binary32 value before it. -/
def sqrtLt (v c : ℚ) : Bool :=
  decide (v < (c - ulpBelow c / 2) * (c - ulpBelow c / 2))

/-- The distance test of the code, `float dx = ..; float dz = ..;
float distance = sqrt(dx*dx + dz*dz); distance < r`, for the exact differences
`dx`, `dz` and the float literal `r`. -/
def distLt (dx dz r : ℚ) : Bool :=
  sqrtLt (f32 (f32 (f32 dx * f32 dx) + f32 (f32 dz * f32 dz))) (f32 r)

/-! ## Apples (main.cpp lines 109-221) -/

/-- One coordinate of a candidate: `(rand() % 16) - 8` stored into a float,
then `floor(..) + 0.5f`; both steps are exact, the values being `k + 0.5` for
an integer `k` in [-8, 7]. -/
def candidateCoord (draw : Nat) : ℚ :=
  ((⌊((((draw % 16 : Nat) : Int) - 8 : Int) : ℚ)⌋ : Int) : ℚ) + 0.5

/-- The validity flag computed by one pass of the body of the `while` loop of
`spawnApple` for the candidate `(ax, az)`: it starts `true` and is cleared by a
snake segment closer than 1.0, by an apple of the collection closer than 2.0,
or by a coordinate outside the margin. -/
def validPosition (snake : List Segment) (apples : List Apple) (ax az : ℚ) : Bool :=
  let tooCloseToSnake := snake.any fun segment => distLt (segment.x - ax) (segment.z - az) 1.0
  let tooCloseToApple := apples.any fun apple => distLt (apple.x - ax) (apple.z - az) 2.0
  let outside := decide (ax ≤ -9.5 ∨ ax ≥ 9.5 ∨ az ≤ -9.5 ∨ az ≥ 9.5)
  !tooCloseToSnake && !tooCloseToApple && !outside

/-- The `while (!validPosition && attempts < 100)` loop of `spawnApple`, with
`remaining = 100 - attempts`.  Each pass draws two random numbers; the loop
stops at the first valid candidate, or after the last attempt with none. -/
def spawnLoop (snake : List Segment) (apples : List Apple) : Nat → Rand → Option Apple × Rand
  | 0, r => (none, r)
  | remaining + 1, r =>
    let ax := candidateCoord (r 0)
    let az := candidateCoord (r 1)
    if validPosition snake apples ax az then
      (some { x := ax, z := az, active := true }, r.after 2)
    else
      spawnLoop snake apples remaining (r.after 2)

/-- Function `spawnApple`. -/
def spawnApple (r : Rand) (s : Game) : Game × Rand :=
  if s.apples.length ≥ MAX_APPLES then (s, r)
  else
    match spawnLoop s.snake s.apples 100 r with
    | (some newApple, r') => ({ s with apples := s.apples ++ [newApple] }, r')
    | (none, r') => (s, r')

/-- The segment appended when the snake grows (main.cpp lines 191-202). -/
def newSegment (snake : List Segment) (h : snake ≠ []) : Segment :=
  let tail := snake.getLast h
  if h1 : snake.length > 1 then
    let beforeTail := snake.get ⟨snake.length - 2, by omega⟩
    { x := f32 (tail.x + f32 (tail.x - beforeTail.x)),
      z := f32 (tail.z + f32 (tail.z - beforeTail.z)) }
  else
    tail

/-- The iterator loop of `checkAppleCollision` over the apples not yet
visited; `kept` are the visited apples that stay in the vector.  An inactive
apple is erased; the first active apple closer than 0.8 to the head is erased
and ends the loop (`true`: an apple was eaten). -/
def appleScan (head : Segment) (kept : List Apple) : List Apple → Bool × List Apple
  | [] => (false, kept)
  | a :: rest =>
    if !a.active then appleScan head kept rest
    else if distLt (head.x - a.x) (head.z - a.z) 0.8 then (true, kept ++ rest)
    else appleScan head (kept ++ [a]) rest

/-- Function `checkAppleCollision`. -/
def checkAppleCollision (r : Rand) (s : Game) : Game × Rand :=
  match h : s.snake with
  | [] => (s, r)
  | head :: _ =>
    if s.gameState ≠ GameState.PLAYING then (s, r)
    else
      match appleScan head [] s.apples with
      | (true, apples') =>
        let score' := s.score + 1
        let highScore' := if score' > s.highScore then score' else s.highScore
        let snake' := s.snake ++ [newSegment s.snake (by simp [h])]
        spawnApple r { s with score := score', highScore := highScore',
                              snake := snake', apples := apples' }
      | (false, apples') => ({ s with apples := apples' }, r)

/-- Function `initApples`. -/
def initApples (r : Rand) (s : Game) : Game × Rand :=
  spawnApple r { s with apples := [] }

/-! ## Collision detection (main.cpp lines 224-243) -/

/-- Function `checkWallCollision`. -/
def checkWallCollision (s : Game) : Bool :=
  match s.snake with
  | [] => false
  | head :: _ => decide (head.x ≤ -10 ∨ head.x ≥ 10 ∨ head.z ≤ -10 ∨ head.z ≥ 10)

/-- Function `checkSelfCollision`. -/
def checkSelfCollision (s : Game) : Bool :=
  match s.snake with
  | [] => false
  | head :: others => others.any fun seg => decide (head.x = seg.x) && decide (head.z = seg.z)

/-! ## Game logic (main.cpp lines 658-736) -/

/-- The `newHead` computed by `moveSnake` (main.cpp lines 662-668). -/
def newHead (currentDir : Direction) (head : Segment) : Segment :=
  match currentDir with
  | Direction.UP => { head with z := f32 (head.z - 1.0) }
  | Direction.DOWN => { head with z := f32 (head.z + 1.0) }
  | Direction.LEFT => { head with x := f32 (head.x - 1.0) }
  | Direction.RIGHT => { head with x := f32 (head.x + 1.0) }

/-- Function `moveSnake`. -/
def moveSnake (s : Game) : Option Game :=
  if s.gameState ≠ GameState.PLAYING then some s
  else
    match s.snake with
    | [] => none
    | head :: _ => some { s with snake := (newHead s.currentDir head :: s.snake).dropLast }

/-- Function `checkGameOver`. -/
def checkGameOver (s : Game) : Game :=
  if checkWallCollision s || checkSelfCollision s then
    { s with gameState := GameState.GAME_OVER }
  else s

/-- Function `resetGame`. -/
def resetGame (r : Rand) (s : Game) : Game × Rand :=
  let s1 := { s with snake := initialSnake, currentDir := Direction.UP }
  let s2 := { s1 with apples := [] }
  let p := initApples r s2
  ({ p.1 with score := 0, gameState := GameState.PLAYING }, p.2)

/-- Function `update`: one tick. -/
def update (r : Rand) (s : Game) : Option (Game × Rand) :=
  if s.gameState = GameState.PLAYING then
    match moveSnake s with
    | none => none
    | some s1 =>
      let p := checkAppleCollision r s1
      some (checkGameOver p.1, p.2)
  else some (s, r)

/-- Function `keyboard`; `key` is the `unsigned char` code, 32 for `' '`. -/
def keyboard (key : Nat) (r : Rand) (s : Game) : Game × Rand :=
  if key = 32 ∧ s.gameState = GameState.GAME_OVER then resetGame r s else (s, r)

/-- GLUT header constant `GLUT_KEY_LEFT`. -/
def GLUT_KEY_LEFT : Int := 100
/-- GLUT header constant `GLUT_KEY_UP`. -/
def GLUT_KEY_UP : Int := 101
/-- GLUT header constant `GLUT_KEY_RIGHT`. -/
def GLUT_KEY_RIGHT : Int := 102
/-- GLUT header constant `GLUT_KEY_DOWN`. -/
def GLUT_KEY_DOWN : Int := 103

/-- Function `specialKeys`. -/
def specialKeys (key : Int) (s : Game) : Game :=
  if s.gameState ≠ GameState.PLAYING then s
  else if key = GLUT_KEY_UP then
    (if s.currentDir ≠ Direction.DOWN then { s with currentDir := Direction.UP } else s)
  else if key = GLUT_KEY_DOWN then
    (if s.currentDir ≠ Direction.UP then { s with currentDir := Direction.DOWN } else s)
  else if key = GLUT_KEY_LEFT then
    (if s.currentDir ≠ Direction.RIGHT then { s with currentDir := Direction.LEFT } else s)
  else if key = GLUT_KEY_RIGHT then
    (if s.currentDir ≠ Direction.LEFT then { s with currentDir := Direction.RIGHT } else s)
  else s

/-! ## Vocabulary of the specification -/

/-- The key code by which the presentation layer requests direction `d`. -/
def keyOf : Direction → Int
  | Direction.UP => GLUT_KEY_UP
  | Direction.DOWN => GLUT_KEY_DOWN
  | Direction.LEFT => GLUT_KEY_LEFT
  | Direction.RIGHT => GLUT_KEY_RIGHT

/-- The direct opposite of a heading. -/
def opposite : Direction → Direction
  | Direction.UP => Direction.DOWN
  | Direction.DOWN => Direction.UP
  | Direction.LEFT => Direction.RIGHT
  | Direction.RIGHT => Direction.LEFT

/-- The segment one unit from `p` in direction `d`
(UP: z-1, DOWN: z+1, LEFT: x-1, RIGHT: x+1). -/
def stepIn (d : Direction) (p : Segment) : Segment :=
  match d with
  | Direction.UP => ⟨p.x, p.z - 1⟩
  | Direction.DOWN => ⟨p.x, p.z + 1⟩
  | Direction.LEFT => ⟨p.x - 1, p.z⟩
  | Direction.RIGHT => ⟨p.x + 1, p.z⟩

/-- The step of `stepIn` as a float computes it: the coordinate that moves is
rounded to binary32, the other is copied. -/
def stepRounded (d : Direction) (p : Segment) : Segment :=
  match d with
  | Direction.UP => ⟨p.x, f32 (stepIn d p).z⟩
  | Direction.DOWN => ⟨p.x, f32 (stepIn d p).z⟩
  | Direction.LEFT => ⟨f32 (stepIn d p).x, p.z⟩
  | Direction.RIGHT => ⟨f32 (stepIn d p).x, p.z⟩

/-- Apple `a` is active and at Euclidean distance below 0.8 from `head`. -/
def inRange (head : Segment) (a : Apple) : Prop :=
  a.active = true ∧ (head.x - a.x) * (head.x - a.x) + (head.z - a.z) * (head.z - a.z) < 0.64

instance (head : Segment) (a : Apple) : Decidable (inRange head a) := by
  unfold inRange; infer_instance

/-- A fresh game: the initial snake heading UP, PLAYING, score 0, with the
given apple collection and high score. -/
def freshGame (apples : List Apple) (highScore : Int) : Game :=
  { gameState := GameState.PLAYING, currentDir := Direction.UP, snake := initialSnake,
    apples := apples, score := 0, highScore := highScore }

/-- A finite sequence of directional inputs, delivered in order. -/
def applyInputs (inputs : List Direction) (s : Game) : Game :=
  inputs.foldl (fun g d => specialKeys (keyOf d) g) s

/-- Draws whose first candidate is the cell centre (0.5, -1.5). -/
def nearHeadDraws : Rand := fun i => if i = 0 then 8 else if i = 1 then 6 else 0

/-- The pickup test of `checkAppleCollision` for one apple: it is active and
the float distance from the head is below `0.8f`. -/
def touches (head : Segment) (a : Apple) : Bool :=
  a.active && distLt (head.x - a.x) (head.z - a.z) 0.8

/-- An integer coordinate of magnitude at most `bound`. -/
def IntCoord (bound : Int) (c : ℚ) : Prop := ∃ k : Int, c = k ∧ |k| ≤ bound

/-- A coordinate `k + 1/2` for an integer `k` with `-bound ≤ k < bound`. -/
def HalfCoord (bound : Int) (c : ℚ) : Prop := ∃ k : Int, c = k + 1 / 2 ∧ -bound ≤ k ∧ k < bound

instance (bound : Int) (c : ℚ) : Decidable (IntCoord bound c) :=
  decidable_of_iff (c.den = 1 ∧ |c.num| ≤ bound)
    ⟨fun h => ⟨c.num, ((Rat.den_eq_one_iff c).mp h.1).symm, h.2⟩,
     fun h => by
      obtain ⟨k, hk, hb⟩ := h
      subst hk
      exact ⟨rfl, hb⟩⟩

instance (bound : Int) (c : ℚ) : Decidable (HalfCoord bound c) :=
  decidable_of_iff ((c - 1 / 2).den = 1 ∧ -bound ≤ (c - 1 / 2).num ∧ (c - 1 / 2).num < bound)
    ⟨fun h => ⟨(c - 1 / 2).num, by
        have := (Rat.den_eq_one_iff (c - 1 / 2)).mp h.1
        linarith, h.2⟩,
     fun h => by
      obtain ⟨k, hk, hb⟩ := h
      have hc : c - 1 / 2 = (k : ℚ) := by rw [hk]; ring
      rw [hc]
      exact ⟨rfl, hb⟩⟩

/-- A state on the unit grid of the data model: snake segments on integer
coordinates, apples on integer-plus-one-half coordinates, all of magnitude at
most 512. -/
def GridState (s : Game) : Prop :=
  (∀ seg ∈ s.snake, IntCoord 512 seg.x ∧ IntCoord 512 seg.z) ∧
  (∀ a ∈ s.apples, HalfCoord 512 a.x ∧ HalfCoord 512 a.z)

instance (s : Game) : Decidable (GridState s) := by
  unfold GridState; infer_instance

/-- The candidate `(cx, cz)` is at Euclidean distance at least 1.0 from every
segment of `snake`. -/
def farFromSnake (snake : List Segment) (cx cz : ℚ) : Prop :=
  ∀ seg ∈ snake, 1 ≤ (seg.x - cx) * (seg.x - cx) + (seg.z - cz) * (seg.z - cz)

instance (snake : List Segment) (cx cz : ℚ) : Decidable (farFromSnake snake cx cz) := by
  unfold farFromSnake; infer_instance

/-- The coordinate the specification derives from one draw: a value in
[-8, 8) floored to its grid cell, plus one half. -/
def cellCentre (draw : Nat) : ℚ := ((draw % 16 : Nat) : ℚ) - 8 + 1 / 2

/-! ## The event loop (main.cpp lines 817-818, 834-842) -/

/-- The callbacks GLUT dispatches once `glutMainLoop` runs: the timer
(`update`), a special key (`specialKeys`, any key code) and an ordinary key
(`keyboard`, any key code). -/
inductive Event where
  | tick
  | special (key : Int)
  | keyboard (key : Nat)
deriving DecidableEq

/-- The state after `init()`: the initial globals with `initApples` run. -/
def startGame (r : Rand) : Game × Rand := initApples r initialGlobals

/-- One callback, run to completion. -/
def step (e : Event) (r : Rand) (s : Game) : Option (Game × Rand) :=
  match e with
  | Event.tick => update r s
  | Event.special key => some (specialKeys key s, r)
  | Event.keyboard key => some (keyboard key r s)

/-- A finite sequence of callbacks, each run to completion before the next. -/
def run : List Event → Rand → Game → Option (Game × Rand)
  | [], r, s => some (s, r)
  | e :: es, r, s =>
    match step e r s with
    | none => none
    | some p => run es p.2 p.1

/-- Two segments differ by exactly 1 in one coordinate and by 0 in the other. -/
def adjacent (p q : Segment) : Prop :=
  (|p.x - q.x| = 1 ∧ p.z = q.z) ∨ (p.x = q.x ∧ |p.z - q.z| = 1)

/-- Grid facts of the states inside a tick: integer snake coordinates of
magnitude at most 30, at most 10 except for the last segment, and apples on
cell centres `k + 1/2` with `-8 ≤ k < 8`. -/
def GridPre (s : Game) : Prop :=
  (∀ seg ∈ s.snake, IntCoord 30 seg.x ∧ IntCoord 30 seg.z) ∧
  (∀ seg ∈ s.snake.dropLast, IntCoord 10 seg.x ∧ IntCoord 10 seg.z) ∧
  (∀ a ∈ s.apples, HalfCoord 8 a.x ∧ HalfCoord 8 a.z)

instance (s : Game) : Decidable (GridPre s) := by
  unfold GridPre; infer_instance

/-- Grid facts of every state the event loop reaches: `GridPre`, and while
PLAYING the head is strictly inside the walls. -/
def GridInv (s : Game) : Prop :=
  GridPre s ∧
  (s.gameState = GameState.PLAYING →
    ∀ head ∈ s.snake.head?, IntCoord 9 head.x ∧ IntCoord 9 head.z)

instance (s : Game) : Decidable (GridInv s) := by
  unfold GridInv; infer_instance

/-- The facts that hold of every state the event loop reaches: the snake has
score + 3 segments, 0 ≤ score ≤ highScore, consecutive segments are adjacent,
and there is at most one apple. -/
def GameInv (s : Game) : Prop :=
  (s.snake.length : Int) = s.score + 3 ∧ 0 ≤ s.score ∧ s.score ≤ s.highScore ∧
  List.Chain' adjacent s.snake ∧ s.apples.length ≤ 1

/-! ## Sample states -/

/-- A snake whose head sits on the wall line x = 10. -/
def wallState : Game :=
  { gameState := GameState.PLAYING, currentDir := Direction.RIGHT,
    snake := [⟨10, 0⟩, ⟨9, 0⟩, ⟨8, 0⟩], apples := [], score := 0, highScore := 0 }

/-- A finished game with score 5 and high score 5. -/
def finishedState : Game :=
  { gameState := GameState.GAME_OVER, currentDir := Direction.LEFT,
    snake := [⟨-10, 3⟩, ⟨-9, 3⟩, ⟨-8, 3⟩, ⟨-7, 3⟩, ⟨-6, 3⟩, ⟨-5, 3⟩, ⟨-4, 3⟩, ⟨-3, 3⟩],
    apples := [⟨4.5, 4.5, true⟩], score := 5, highScore := 5 }

/-- A fresh game whose apple is far from the snake. -/
def reversalState : Game := freshGame [⟨4.5, 4.5, true⟩] 0

/-- A PLAYING snake heading DOWN whose head is at z = 2^24, where binary32
values are 2 apart. -/
def farState : Game :=
  { gameState := GameState.PLAYING, currentDir := Direction.DOWN,
    snake := [⟨0, 16777216⟩, ⟨0, 16777215⟩, ⟨0, 16777214⟩], apples := [],
    score := 0, highScore := 0 }

/-- A state whose only segment is just inside distance 1.0 of the cell centre
(-7.5, -7.5), off the grid: x = -6.5 - 2^-21, z = -7.5 + 2^-10 - 2^-21. -/
def skewState : Game :=
  { gameState := GameState.PLAYING, currentDir := Direction.UP,
    snake := [⟨-13631489 / 2097152, -15726593 / 2097152⟩], apples := [],
    score := 0, highScore := 0 }

/-- A PLAYING snake heading UP that curls towards its own path, with an apple
at the cell centre (2.5, -0.5) next to the cell the head moves to. -/
def biteState : Game :=
  { gameState := GameState.PLAYING, currentDir := Direction.UP,
    snake := [⟨2, 1⟩, ⟨1, 1⟩, ⟨0, 1⟩, ⟨0, 0⟩, ⟨1, 0⟩, ⟨1, -1⟩],
    apples := [⟨2.5, -0.5, true⟩], score := 3, highScore := 3 }

/-! ## Auxiliary facts: binary32 rounding -/

theorem two_zpow_pos (e : Int) : (0 : ℚ) < (2 : ℚ) ^ e := zpow_pos (by norm_num) e

/-- The binade of a positive value fixes its binary logarithm. -/
theorem log_eq_of_bounds (q : ℚ) (k : Int) (h1 : (2 : ℚ) ^ k ≤ q) (h2 : q < (2 : ℚ) ^ (k + 1)) :
    Int.log 2 q = k := by
  have hpos : 0 < q := lt_of_lt_of_le (two_zpow_pos k) h1
  apply le_antisymm
  · have := (Int.lt_zpow_iff_log_lt (b := 2) (by norm_num) hpos).mp (by exact_mod_cast h2)
    omega
  · exact (Int.zpow_le_iff_le_log (b := 2) (by norm_num) hpos).mp (by exact_mod_cast h1)

/-- The binade of `q` fixes the unit in the last place. -/
theorem ulpExp_eq (q : ℚ) (k : Int) (h1 : (2 : ℚ) ^ k ≤ |q|) (h2 : |q| < (2 : ℚ) ^ (k + 1))
    (hk : -126 ≤ k) : ulpExp q = k - 23 := by
  unfold ulpExp
  rw [log_eq_of_bounds |q| k h1 h2]
  omega

/-- Rounding, given the unit in the last place: the result is the multiple
`n` of the unit nearest to `q`, the even one at a tie. -/
theorem f32_round (q : ℚ) (e n : Int) (he : ulpExp q = e)
    (h : |q / (2 : ℚ) ^ e - n| < 1 / 2 ∨ (|q / (2 : ℚ) ^ e - n| = 1 / 2 ∧ n % 2 = 0)) :
    f32 q = n * (2 : ℚ) ^ e := by
  unfold f32
  simp only [he]
  generalize q / (2 : ℚ) ^ e = t at h
  congr 1
  have hfl : (⌊t⌋ : ℚ) ≤ t := Int.floor_le t
  have hfu : t < (⌊t⌋ : ℚ) + 1 := Int.lt_floor_add_one t
  rcases h with h | ⟨h, hev⟩
  · rw [abs_lt] at h
    by_cases hge : (n : ℚ) ≤ t
    · have hf : ⌊t⌋ = n := by
        rw [Int.floor_eq_iff]; constructor <;> linarith
      rw [hf, if_pos (by linarith)]
    · push_neg at hge
      have hf : ⌊t⌋ = n - 1 := by
        rw [Int.floor_eq_iff]; push_cast; constructor <;> linarith
      rw [hf]
      push_cast
      rw [if_neg (by linarith), if_pos (by linarith)]
      ring
  · by_cases hge : (n : ℚ) ≤ t
    · have ht : t = n + 1 / 2 := by
        rw [abs_of_nonneg (by linarith)] at h; linarith
      have hf : ⌊t⌋ = n := by
        rw [Int.floor_eq_iff]; constructor <;> linarith
      rw [hf, if_neg (by linarith), if_neg (by linarith), if_pos hev]
    · push_neg at hge
      have ht : t = n - 1 / 2 := by
        rw [abs_of_neg (by linarith)] at h; linarith
      have hf : ⌊t⌋ = n - 1 := by
        rw [Int.floor_eq_iff]; push_cast; constructor <;> linarith
      rw [hf]
      push_cast
      rw [if_neg (by linarith), if_neg (by linarith), if_neg (by omega)]
      ring

/-- A value `m * 2 ^ k` with a significand below 2^24 is a binary32 value:
rounding leaves it unchanged. -/
theorem f32_dyadic (m k : Int) (hm : |m| < 2 ^ 24) (hk : -149 ≤ k) :
    f32 ((m : ℚ) * (2 : ℚ) ^ k) = (m : ℚ) * (2 : ℚ) ^ k := by
  by_cases hm0 : m = 0
  · subst hm0
    simp [f32]
  have hq : 0 < |(m : ℚ) * (2 : ℚ) ^ k| := by
    rw [abs_pos]
    exact mul_ne_zero (by exact_mod_cast hm0) (ne_of_gt (two_zpow_pos k))
  have hlt : |(m : ℚ) * (2 : ℚ) ^ k| < (2 : ℚ) ^ (k + 24) := by
    rw [abs_mul, abs_of_pos (two_zpow_pos k), zpow_add₀ (by norm_num : (2 : ℚ) ≠ 0), mul_comm]
    apply mul_lt_mul_of_pos_left _ (two_zpow_pos k)
    have : ((|m| : Int) : ℚ) < ((2 ^ 24 : Int) : ℚ) := by exact_mod_cast hm
    push_cast at this
    norm_num
    exact this
  have hlog : Int.log 2 |(m : ℚ) * (2 : ℚ) ^ k| < k + 24 :=
    (Int.lt_zpow_iff_log_lt (b := 2) (by norm_num) hq).mp (by exact_mod_cast hlt)
  have he : ulpExp ((m : ℚ) * (2 : ℚ) ^ k) ≤ k := by
    unfold ulpExp
    omega
  obtain ⟨d, hd⟩ : ∃ d : Nat, k = ulpExp ((m : ℚ) * (2 : ℚ) ^ k) + d :=
    ⟨(k - ulpExp ((m : ℚ) * (2 : ℚ) ^ k)).toNat, by omega⟩
  have hdiv : (m : ℚ) * (2 : ℚ) ^ k / (2 : ℚ) ^ ulpExp ((m : ℚ) * (2 : ℚ) ^ k)
      = ((m * 2 ^ d : Int) : ℚ) := by
    rw [div_eq_iff (ne_of_gt (two_zpow_pos _))]
    conv_lhs => rw [hd]
    rw [zpow_add₀ (by norm_num : (2 : ℚ) ≠ 0), zpow_natCast]
    push_cast
    ring
  rw [f32_round _ _ (m * 2 ^ d) rfl (Or.inl (by rw [hdiv]; simp))]
  conv_rhs => rw [hd]
  rw [zpow_add₀ (by norm_num : (2 : ℚ) ≠ 0), zpow_natCast]
  push_cast
  ring

/-- Integers of magnitude at most 2^24 are binary32 values. -/
theorem f32_int (k : Int) (hk : |k| ≤ 2 ^ 24) : f32 (k : ℚ) = k := by
  rcases lt_or_eq_of_le hk with h | h
  · simpa using f32_dyadic k 0 h (by norm_num)
  · have hk' : k = 2 ^ 24 ∨ k = -2 ^ 24 := by
      rcases abs_cases k with ⟨h1, _⟩ | ⟨h1, _⟩ <;> [left; right] <;> omega
    rcases hk' with rfl | rfl
    · have := f32_dyadic (2 ^ 23) 1 (by norm_num) (by norm_num)
      norm_num at this ⊢
      exact this
    · have := f32_dyadic (-2 ^ 23) 1 (by norm_num) (by norm_num)
      norm_num at this ⊢
      exact this

/-- Multiples of 1/4 with a numerator below 2^24 are binary32 values. -/
theorem f32_quarter (m : Int) (hm : |m| < 2 ^ 24) : f32 ((m : ℚ) / 4) = (m : ℚ) / 4 := by
  have := f32_dyadic m (-2) hm (by norm_num)
  have h4 : ((2 : ℚ) ^ (-2 : Int)) = 1 / 4 := by norm_num [zpow_neg]
  rw [h4] at this
  rw [show (m : ℚ) / 4 = (m : ℚ) * (1 / 4) by ring]
  exact this

/-- Multiples of 1/2 with a numerator below 2^24 are binary32 values. -/
theorem f32_half (m : Int) (hm : |m| < 2 ^ 24) : f32 ((m : ℚ) / 2) = (m : ℚ) / 2 := by
  have := f32_dyadic m (-1) hm (by norm_num)
  have h2 : ((2 : ℚ) ^ (-1 : Int)) = 1 / 2 := by norm_num [zpow_neg]
  rw [h2] at this
  rw [show (m : ℚ) / 2 = (m : ℚ) * (1 / 2) by ring]
  exact this

/-- The float literal `0.8f`. -/
theorem f32_point8 : f32 0.8 = 13421773 / 16777216 := by
  have habs : |(0.8 : ℚ)| = 4 / 5 := by rw [abs_of_pos (by norm_num)]; norm_num
  have he := ulpExp_eq 0.8 (-1) (by rw [habs]; norm_num [zpow_neg]) (by rw [habs]; norm_num)
    (by norm_num)
  rw [f32_round 0.8 (-24) 13421773 (by rw [he]; norm_num)
    (Or.inl (by norm_num [zpow_neg, abs_lt]))]
  norm_num [zpow_neg]

theorem f32_one : f32 1.0 = 1 := by
  have := f32_int 1 (by norm_num)
  norm_num at this ⊢
  exact this

theorem f32_two : f32 2.0 = 2 := by
  have := f32_int 2 (by norm_num)
  norm_num at this ⊢
  exact this

/-- The midpoint below `0.8f` is 26843545 / 2^25. -/
theorem sqrtLt_point8 (v : ℚ) :
    sqrtLt v (13421773 / 16777216) = decide (v < (26843545 / 33554432) * (26843545 / 33554432)) := by
  have hlog : Int.log 2 (13421773 / 16777216 : ℚ) = -1 :=
    log_eq_of_bounds _ (-1) (by norm_num [zpow_neg]) (by norm_num)
  have hu : ulpBelow (13421773 / 16777216) = 1 / 16777216 := by
    unfold ulpBelow ulpExp
    rw [hlog, abs_of_pos (by norm_num), hlog, if_neg (by norm_num [zpow_neg])]
    norm_num [zpow_neg]
  unfold sqrtLt
  rw [hu]
  norm_num

/-- The midpoint below `1.0f` is 1 - 2^-25. -/
theorem sqrtLt_one (v : ℚ) :
    sqrtLt v 1 = decide (v < (33554431 / 33554432) * (33554431 / 33554432)) := by
  have hu : ulpBelow 1 = 1 / 16777216 := by
    unfold ulpBelow
    rw [Int.log_one_right, if_pos (by norm_num)]
    norm_num [zpow_neg]
  unfold sqrtLt
  rw [hu]
  norm_num

/-- The midpoint below `2.0f` is 2 - 2^-24. -/
theorem sqrtLt_two (v : ℚ) :
    sqrtLt v 2 = decide (v < (33554431 / 16777216) * (33554431 / 16777216)) := by
  have hlog : Int.log 2 (2 : ℚ) = 1 := log_eq_of_bounds _ 1 (by norm_num) (by norm_num)
  have hu : ulpBelow 2 = 1 / 8388608 := by
    unfold ulpBelow
    rw [hlog, if_pos (by norm_num)]
    norm_num [zpow_neg]
  unfold sqrtLt
  rw [hu]
  norm_num

/-- The comparison of `sqrtLt` is the comparison of the exact square root with
the midpoint below `c`. -/
theorem sqrtLt_iff_real (v c : ℚ) (hc : 0 < c - ulpBelow c / 2) :
    sqrtLt v c = true ↔ Real.sqrt (v : ℝ) < ((c - ulpBelow c / 2 : ℚ) : ℝ) := by
  have hc' : (0 : ℝ) < ((c - ulpBelow c / 2 : ℚ) : ℝ) := by exact_mod_cast hc
  rw [Real.sqrt_lt' hc', pow_two]
  simp only [sqrtLt, decide_eq_true_eq]
  constructor
  · intro h; exact_mod_cast h
  · intro h; exact_mod_cast h

/-- The float sum 2^24 + 1.0f is 2^24: the tie goes to the even significand. -/
theorem f32_two24_add_one : f32 (16777216 + 1) = 16777216 := by
  have habs : |(16777216 + 1 : ℚ)| = 16777217 := by
    rw [abs_of_pos (by norm_num)]; norm_num
  have he := ulpExp_eq (16777216 + 1) 24 (by rw [habs]; norm_num) (by rw [habs]; norm_num)
    (by norm_num)
  rw [f32_round (16777216 + 1) 1 8388608 (by rw [he]; norm_num)
    (Or.inr ⟨by norm_num, by norm_num⟩)]
  norm_num

/-! ## Auxiliary facts: exactness on the grid -/

theorem IntCoord.widen {b b' : Int} {c : ℚ} (h : IntCoord b c) (hb : b ≤ b') : IntCoord b' c := by
  obtain ⟨k, hk, hle⟩ := h
  exact ⟨k, hk, le_trans hle hb⟩

theorem HalfCoord.relax {b b' : Int} {c : ℚ} (h : HalfCoord b c) (hb : b ≤ b') :
    HalfCoord b' c := by
  obtain ⟨k, hk, h1, h2⟩ := h
  exact ⟨k, hk, by omega, by omega⟩

/-- With differences `n / 2` and `m / 2` of moderate size no operation of the
distance test rounds: the value under the root is `(n * n + m * m) / 4`. -/
theorem distLt_halves (n m : Int) (hn : |n| ≤ 2800) (hm : |m| ≤ 2800) (r : ℚ) :
    distLt ((n : ℚ) / 2) ((m : ℚ) / 2) r = sqrtLt (((n * n + m * m : Int) : ℚ) / 4) (f32 r) := by
  have hn2 : |n * n| < 2 ^ 24 := by
    rw [abs_mul]
    have := mul_le_mul hn hn (abs_nonneg n) (by norm_num : (0 : Int) ≤ 2800)
    omega
  have hm2 : |m * m| < 2 ^ 24 := by
    rw [abs_mul]
    have := mul_le_mul hm hm (abs_nonneg m) (by norm_num : (0 : Int) ≤ 2800)
    omega
  have hs : |n * n + m * m| < 2 ^ 24 := by
    have h1 := mul_le_mul hn hn (abs_nonneg n) (by norm_num : (0 : Int) ≤ 2800)
    have h2 := mul_le_mul hm hm (abs_nonneg m) (by norm_num : (0 : Int) ≤ 2800)
    rw [← abs_mul] at h1 h2
    have := abs_add (n * n) (m * m)
    omega
  unfold distLt
  rw [f32_half n (by omega), f32_half m (by omega)]
  rw [show (n : ℚ) / 2 * ((n : ℚ) / 2) = ((n * n : Int) : ℚ) / 4 by push_cast; ring,
    show (m : ℚ) / 2 * ((m : ℚ) / 2) = ((m * m : Int) : ℚ) / 4 by push_cast; ring,
    f32_quarter _ hn2, f32_quarter _ hm2,
    show ((n * n : Int) : ℚ) / 4 + ((m * m : Int) : ℚ) / 4 = ((n * n + m * m : Int) : ℚ) / 4 by
      push_cast; ring,
    f32_quarter _ hs]

/-- On the grid the three float distance tests of the code are the exact
tests: below 0.8, below 1.0, below 2.0. -/
theorem distLt_grid (dx dz : ℚ) (n m : Int) (hx : dx = (n : ℚ) / 2) (hz : dz = (m : ℚ) / 2)
    (hn : |n| ≤ 2800) (hm : |m| ≤ 2800) :
    (distLt dx dz 0.8 = true ↔ dx * dx + dz * dz < 0.64) ∧
    (distLt dx dz 1.0 = true ↔ dx * dx + dz * dz < 1) ∧
    (distLt dx dz 2.0 = true ↔ dx * dx + dz * dz < 4) := by
  subst hx hz
  have hsq : (n : ℚ) / 2 * ((n : ℚ) / 2) + (m : ℚ) / 2 * ((m : ℚ) / 2)
      = ((n * n + m * m : Int) : ℚ) / 4 := by push_cast; ring
  rw [hsq, distLt_halves n m hn hm, distLt_halves n m hn hm, distLt_halves n m hn hm,
    f32_point8, f32_one, f32_two, sqrtLt_point8, sqrtLt_one, sqrtLt_two]
  simp only [decide_eq_true_eq]
  generalize n * n + m * m = k
  refine ⟨Iff.intro ?_ ?_, Iff.intro ?_ ?_, Iff.intro ?_ ?_⟩ <;> intro h
  · have h3 : (k : ℚ) < 3 := by linarith
    have h3' : k ≤ 2 := by have : k < 3 := by exact_mod_cast h3
                           omega
    have : (k : ℚ) ≤ 2 := by exact_mod_cast h3'
    linarith
  · have h3 : (k : ℚ) < 3 := by norm_num at h; linarith
    have h3' : k ≤ 2 := by have : k < 3 := by exact_mod_cast h3
                           omega
    have : (k : ℚ) ≤ 2 := by exact_mod_cast h3'
    linarith
  · have h3 : (k : ℚ) < 4 := by linarith
    linarith
  · have h3 : (k : ℚ) < 4 := by linarith
    have h3' : k ≤ 3 := by have : k < 4 := by exact_mod_cast h3
                           omega
    have : (k : ℚ) ≤ 3 := by exact_mod_cast h3'
    linarith
  · have h3 : (k : ℚ) < 16 := by linarith
    linarith
  · have h3 : (k : ℚ) < 16 := by linarith
    have h3' : k ≤ 15 := by have : k < 16 := by exact_mod_cast h3
                            omega
    have : (k : ℚ) ≤ 15 := by exact_mod_cast h3'
    linarith

/-- The difference of an integer and a cell-centre coordinate, in halves. -/
theorem sub_int_half (p a : ℚ) (hp : IntCoord 512 p) (ha : HalfCoord 512 a) :
    ∃ n : Int, p - a = (n : ℚ) / 2 ∧ |n| ≤ 2800 := by
  obtain ⟨k, rfl, hk⟩ := hp
  obtain ⟨j, rfl, hj1, hj2⟩ := ha
  refine ⟨2 * k - 2 * j - 1, by push_cast; ring, ?_⟩
  rw [abs_le] at hk ⊢
  constructor <;> omega

/-- The difference of two cell-centre coordinates, in halves. -/
theorem sub_half_half (a b : ℚ) (ha : HalfCoord 512 a) (hb : HalfCoord 512 b) :
    ∃ n : Int, a - b = (n : ℚ) / 2 ∧ |n| ≤ 2800 := by
  obtain ⟨k, rfl, hk1, hk2⟩ := ha
  obtain ⟨j, rfl, hj1, hj2⟩ := hb
  refine ⟨2 * k - 2 * j, by push_cast; ring, ?_⟩
  rw [abs_le]
  constructor <;> omega

/-- On the grid the pickup test of the code is the exact test: the apple is
active and at Euclidean distance below 0.8 from the head. -/
theorem touches_iff_inRange (head : Segment) (a : Apple)
    (hhx : IntCoord 512 head.x) (hhz : IntCoord 512 head.z)
    (hax : HalfCoord 512 a.x) (haz : HalfCoord 512 a.z) :
    touches head a = true ↔ inRange head a := by
  obtain ⟨n, hn, hnb⟩ := sub_int_half _ _ hhx hax
  obtain ⟨m, hm, hmb⟩ := sub_int_half _ _ hhz haz
  unfold touches inRange
  rw [Bool.and_eq_true, (distLt_grid _ _ n m hn hm hnb hmb).1]

/-- On integer coordinates of magnitude below 2^24 the `newHead` of the code
is the head moved by exactly one unit. -/
theorem newHead_eq_stepIn (d : Direction) (head : Segment)
    (hx : IntCoord 16777215 head.x) (hz : IntCoord 16777215 head.z) :
    newHead d head = stepIn d head := by
  obtain ⟨x, z⟩ := head
  obtain ⟨kx, hkx, hbx⟩ := hx
  obtain ⟨kz, hkz, hbz⟩ := hz
  simp only at hkx hkz
  subst hkx hkz
  rw [abs_le] at hbx hbz
  have h1 : f32 ((kz : ℚ) - 1.0) = (kz : ℚ) - 1 := by
    have := f32_int (kz - 1) (by rw [abs_le]; constructor <;> omega)
    push_cast at this
    norm_num
    exact this
  have h2 : f32 ((kz : ℚ) + 1.0) = (kz : ℚ) + 1 := by
    have := f32_int (kz + 1) (by rw [abs_le]; constructor <;> omega)
    push_cast at this
    norm_num
    exact this
  have h3 : f32 ((kx : ℚ) - 1.0) = (kx : ℚ) - 1 := by
    have := f32_int (kx - 1) (by rw [abs_le]; constructor <;> omega)
    push_cast at this
    norm_num
    exact this
  have h4 : f32 ((kx : ℚ) + 1.0) = (kx : ℚ) + 1 := by
    have := f32_int (kx + 1) (by rw [abs_le]; constructor <;> omega)
    push_cast at this
    norm_num
    exact this
  cases d <;> simp only [newHead, stepIn, h1, h2, h3, h4]

/-- On integer coordinates of magnitude at most 2^22 the extrapolation of the
growth branch is exact. -/
theorem extrapolate_exact (b t : ℚ) (hb : IntCoord 4194304 b) (ht : IntCoord 4194304 t) :
    f32 (t + f32 (t - b)) = t + (t - b) := by
  obtain ⟨kb, rfl, hkb⟩ := hb
  obtain ⟨kt, rfl, hkt⟩ := ht
  rw [abs_le] at hkb hkt
  have h1 : f32 ((kt : ℚ) - kb) = (kt : ℚ) - kb := by
    have := f32_int (kt - kb) (by rw [abs_le]; constructor <;> omega)
    push_cast at this
    exact this
  rw [h1]
  have := f32_int (kt + (kt - kb)) (by rw [abs_le]; constructor <;> omega)
  push_cast at this
  exact this

theorem candidateCoord_eq (draw : Nat) :
    candidateCoord draw = (((draw % 16 : Nat) : Int) - 8 : Int) + 1 / 2 := by
  unfold candidateCoord
  rw [Int.floor_intCast]
  norm_num

theorem candidateCoord_eq_cellCentre (draw : Nat) : candidateCoord draw = cellCentre draw := by
  rw [candidateCoord_eq]
  unfold cellCentre
  rw [Int.cast_sub, Int.cast_natCast]
  norm_num

/-- A drawn candidate coordinate is a cell centre `k + 1/2` with `-8 ≤ k < 8`. -/
theorem candidateCoord_half (draw : Nat) : HalfCoord 8 (candidateCoord draw) :=
  ⟨((draw % 16 : Nat) : Int) - 8, candidateCoord_eq draw, by omega, by omega⟩

theorem GridState_initialGlobals : GridState initialGlobals := by
  constructor
  · intro seg hseg
    simp only [initialGlobals, initialSnake, List.mem_cons, List.mem_singleton,
      List.not_mem_nil, or_false] at hseg
    rcases hseg with rfl | rfl | rfl
    · exact ⟨⟨0, by norm_num, by norm_num⟩, ⟨0, by norm_num, by norm_num⟩⟩
    · exact ⟨⟨0, by norm_num, by norm_num⟩, ⟨1, by norm_num, by norm_num⟩⟩
    · exact ⟨⟨0, by norm_num, by norm_num⟩, ⟨2, by norm_num, by norm_num⟩⟩
  · intro a ha
    simp [initialGlobals] at ha

/-- A small integer literal as a grid coordinate. -/
theorem IntCoord_of_int (b k : Int) (h : |k| ≤ b) : IntCoord b (k : ℚ) := ⟨k, rfl, h⟩

/-! ## C1: moveSnake -/

theorem newHead_eq_stepRounded (d : Direction) (head : Segment) :
    newHead d head = stepRounded d head := by
  cases d <;> simp [newHead, stepRounded, stepIn] <;> norm_num

/-- The state returned by `moveSnake` past its guard. -/
theorem moveSnake_newHead (s : Game) (head : Segment) (rest : List Segment)
    (hplay : s.gameState = GameState.PLAYING) (hsnake : s.snake = head :: rest) :
    moveSnake s =
      some { s with snake := newHead s.currentDir head :: (head :: rest).dropLast } := by
  simp only [moveSnake, hplay, ne_eq, not_true_eq_false, if_false, hsnake]
  simp [List.dropLast]

/-- The state returned by `moveSnake` past its guard, for an integer head of
magnitude below 2^24. -/
theorem moveSnake_eq (s : Game) (head : Segment) (rest : List Segment)
    (hplay : s.gameState = GameState.PLAYING) (hsnake : s.snake = head :: rest)
    (hx : IntCoord 16777215 head.x) (hz : IntCoord 16777215 head.z) :
    moveSnake s = some { s with snake := stepIn s.currentDir head :: (head :: rest).dropLast } := by
  rw [moveSnake_newHead s head rest hplay hsnake, newHead_eq_stepIn _ _ hx hz]

/-- Counterexample to C1: at z = 2^24 the float `+= 1.0f` does not change z,
so `moveSnake` heading DOWN puts the new head on the cell of the old head,
not one unit further. -/
theorem moveSnake_far_head_stays :
    farState.gameState = GameState.PLAYING ∧
    farState.snake = [⟨0, 16777216⟩, ⟨0, 16777215⟩, ⟨0, 16777214⟩] ∧
    ∃ s', moveSnake farState = some s' ∧
      s'.snake = [⟨0, 16777216⟩, ⟨0, 16777216⟩, ⟨0, 16777215⟩] ∧
      s'.snake.head? ≠ some (stepIn farState.currentDir ⟨0, 16777216⟩) := by
  have hround : f32 (16777216 + 1.0) = 16777216 := by
    have := f32_two24_add_one
    norm_num at this ⊢
    exact this
  refine ⟨rfl, rfl, ?_⟩
  rw [moveSnake_newHead farState ⟨0, 16777216⟩ [⟨0, 16777215⟩, ⟨0, 16777214⟩] rfl rfl]
  refine ⟨_, rfl, ?_, ?_⟩
  · simp [farState, newHead, hround, List.dropLast]
  · simp [farState, newHead, hround, stepIn]

/-- C1 (amended): in a PLAYING state with snake `head :: rest`, `moveSnake`
returns the state whose snake is the old snake without its last segment behind
a new head, the old head with the coordinate of the current direction moved by
one unit and rounded to float; for an integer head of magnitude below 2^24
the rounding is exact and the new head is the old head moved by exactly one
unit.  The length is unchanged, the old segment at index `i` (other than the
tail) is at index `i + 1`, and score, highScore, apples, direction and game
state are unchanged. -/
theorem moveSnake_translation (s : Game) (head : Segment) (rest : List Segment)
    (hplay : s.gameState = GameState.PLAYING) (hsnake : s.snake = head :: rest) :
    ∃ s', moveSnake s = some s' ∧
      s'.snake = stepRounded s.currentDir head :: (head :: rest).dropLast ∧
      (IntCoord 16777215 head.x → IntCoord 16777215 head.z →
        s'.snake = stepIn s.currentDir head :: (head :: rest).dropLast) ∧
      s'.snake.length = s.snake.length ∧
      (∀ i, i + 1 < s.snake.length → s'.snake[i + 1]? = s.snake[i]?) ∧
      s'.score = s.score ∧ s'.highScore = s.highScore ∧ s'.apples = s.apples ∧
      s'.currentDir = s.currentDir ∧ s'.gameState = s.gameState := by
  refine ⟨{ s with snake := newHead s.currentDir head :: (head :: rest).dropLast },
    moveSnake_newHead s head rest hplay hsnake, ?_, ?_, ?_, ?_, rfl, rfl, rfl, rfl, rfl⟩
  · rw [newHead_eq_stepRounded]
  · intro hx hz
    rw [newHead_eq_stepIn _ _ hx hz]
  · simp [hsnake]
  · intro i hi
    rw [hsnake] at hi ⊢
    simp only [List.getElem?_cons_succ]
    rw [List.getElem?_eq_getElem (by simp at hi ⊢; omega), List.getElem?_eq_getElem (by omega)]
    simp [List.getElem_dropLast]

/-- Witness of C1: the initial snake heading UP moves to (0,-1). -/
theorem moveSnake_translation_witness :
    ∃ s', moveSnake initialGlobals = some s' ∧
      s'.snake = stepIn initialGlobals.currentDir ⟨0, 0⟩ ::
        ([⟨0, 0⟩, ⟨0, 1⟩, ⟨0, 2⟩] : List Segment).dropLast ∧
      s'.snake.length = initialGlobals.snake.length := by
  obtain ⟨s', h1, _, h3, h4, _⟩ :=
    moveSnake_translation initialGlobals ⟨0, 0⟩ [⟨0, 1⟩, ⟨0, 2⟩] rfl rfl
  exact ⟨s', h1, h3 ⟨0, by norm_num, by norm_num⟩ ⟨0, by norm_num, by norm_num⟩, h4⟩

/-! ## C6: spawnApple -/

/-- The validity flag of one attempt, test by test. -/
theorem validPosition_iff (snake : List Segment) (apples : List Apple) (ax az : ℚ) :
    validPosition snake apples ax az = true ↔
      (∀ seg ∈ snake, distLt (seg.x - ax) (seg.z - az) 1.0 = false) ∧
      (∀ b ∈ apples, distLt (b.x - ax) (b.z - az) 2.0 = false) ∧
      (-9.5 < ax ∧ ax < 9.5 ∧ -9.5 < az ∧ az < 9.5) := by
  simp only [validPosition, Bool.and_eq_true, Bool.not_eq_true', List.any_eq_false,
    decide_eq_false_iff_not, not_or, not_le, ge_iff_le, Bool.not_eq_true, and_assoc]

/-- What `validPosition` guarantees for an accepted candidate on the grid:
exact distance at least 1.0 from the snake and at least 2.0 from the apples. -/
theorem validPosition_sound (snake : List Segment) (apples : List Apple) (ax az : ℚ)
    (hsnake : ∀ seg ∈ snake, IntCoord 512 seg.x ∧ IntCoord 512 seg.z)
    (happles : ∀ b ∈ apples, HalfCoord 512 b.x ∧ HalfCoord 512 b.z)
    (hax : HalfCoord 512 ax) (haz : HalfCoord 512 az)
    (h : validPosition snake apples ax az = true) :
    (∀ seg ∈ snake, 1 ≤ (seg.x - ax) * (seg.x - ax) + (seg.z - az) * (seg.z - az)) ∧
    (∀ b ∈ apples, 4 ≤ (b.x - ax) * (b.x - ax) + (b.z - az) * (b.z - az)) ∧
    (-9.5 < ax ∧ ax < 9.5 ∧ -9.5 < az ∧ az < 9.5) := by
  obtain ⟨h1, h2, h3⟩ := (validPosition_iff _ _ _ _).mp h
  refine ⟨fun seg hs => ?_, fun b hb => ?_, h3⟩
  · obtain ⟨n, hn, hnb⟩ := sub_int_half _ _ (hsnake seg hs).1 hax
    obtain ⟨m, hm, hmb⟩ := sub_int_half _ _ (hsnake seg hs).2 haz
    have := h1 seg hs
    rw [← Bool.not_eq_true, (distLt_grid _ _ n m hn hm hnb hmb).2.1] at this
    exact not_lt.mp this
  · obtain ⟨n, hn, hnb⟩ := sub_half_half _ _ (happles b hb).1 hax
    obtain ⟨m, hm, hmb⟩ := sub_half_half _ _ (happles b hb).2 haz
    have := h2 b hb
    rw [← Bool.not_eq_true, (distLt_grid _ _ n m hn hm hnb hmb).2.2] at this
    exact not_lt.mp this

/-- An apple returned by the attempt loop is active, built from two draws,
and passed the validity test. -/
theorem spawnLoop_some (snake : List Segment) (apples : List Apple) (n : Nat) (r r' : Rand)
    (a : Apple) (h : spawnLoop snake apples n r = (some a, r')) :
    a.active = true ∧ (∃ d0 d1 : Nat, a.x = candidateCoord d0 ∧ a.z = candidateCoord d1) ∧
      validPosition snake apples a.x a.z = true := by
  induction n generalizing r with
  | zero => simp [spawnLoop] at h
  | succ n ih =>
    simp only [spawnLoop] at h
    split at h
    · next hv =>
      simp only [Prod.mk.injEq, Option.some.injEq] at h
      obtain ⟨rfl, _⟩ := h
      exact ⟨rfl, ⟨r 0, r 1, rfl, rfl⟩, hv⟩
    · exact ih _ h

/-- The possible results of `spawnApple`: the state itself, or the state with
one apple appended that came out of the attempt loop. -/
theorem spawnApple_cases (r : Rand) (s : Game) :
    (spawnApple r s).1 = s ∨
      ∃ a r', s.apples.length < MAX_APPLES ∧ spawnLoop s.snake s.apples 100 r = (some a, r') ∧
        (spawnApple r s).1 = { s with apples := s.apples ++ [a] } := by
  unfold spawnApple
  split
  · exact Or.inl rfl
  · next hlt =>
    split
    · next a r' heq => exact Or.inr ⟨a, r', by omega, heq, rfl⟩
    · exact Or.inl rfl

/-- Below MAX_APPLES, `spawnApple` appends what the attempt loop returns. -/
theorem spawnApple_apples (r : Rand) (s : Game) (h : s.apples.length < MAX_APPLES) :
    (spawnApple r s).1.apples = s.apples ++ (spawnLoop s.snake s.apples 100 r).1.toList := by
  unfold spawnApple
  rw [if_neg (by omega)]
  split
  · next a r' heq => simp [heq]
  · next r' heq => simp [heq]

/-- The first attempt of the loop, when its candidate is valid. -/
theorem spawnLoop_first_valid (snake : List Segment) (apples : List Apple) (r : Rand)
    (h : validPosition snake apples (candidateCoord (r 0)) (candidateCoord (r 1)) = true) :
    (spawnLoop snake apples 100 r).1 =
      some ⟨candidateCoord (r 0), candidateCoord (r 1), true⟩ := by
  rw [show (100 : Nat) = 99 + 1 from rfl, spawnLoop, if_pos h]

/-- With no apple in the collection and the snake on the grid, a drawn
candidate passes the validity test of the loop exactly when it is at distance
at least 1.0 from every snake segment: a drawn candidate is always inside the
margin. -/
theorem validPosition_candidate_iff (snake : List Segment)
    (hsnake : ∀ seg ∈ snake, IntCoord 512 seg.x ∧ IntCoord 512 seg.z) (d0 d1 : Nat) :
    validPosition snake [] (candidateCoord d0) (candidateCoord d1) = true ↔
      farFromSnake snake (cellCentre d0) (cellCentre d1) := by
  have hax : HalfCoord 512 (candidateCoord d0) := (candidateCoord_half d0).relax (by norm_num)
  have haz : HalfCoord 512 (candidateCoord d1) := (candidateCoord_half d1).relax (by norm_num)
  have hx1 : ((d0 % 16 : Nat) : ℚ) ≤ 15 := by
    have : d0 % 16 ≤ 15 := by omega
    exact_mod_cast this
  have hz1 : ((d1 % 16 : Nat) : ℚ) ≤ 15 := by
    have : d1 % 16 ≤ 15 := by omega
    exact_mod_cast this
  have hx0 : (0 : ℚ) ≤ ((d0 % 16 : Nat) : ℚ) := Nat.cast_nonneg _
  have hz0 : (0 : ℚ) ≤ ((d1 % 16 : Nat) : ℚ) := Nat.cast_nonneg _
  constructor
  · intro h seg hseg
    have := (validPosition_sound _ _ _ _ hsnake (by simp) hax haz h).1 seg hseg
    rw [candidateCoord_eq_cellCentre, candidateCoord_eq_cellCentre] at this
    exact this
  · intro hfar
    rw [validPosition_iff]
    refine ⟨fun seg hseg => ?_, by simp, ?_⟩
    · obtain ⟨n, hn, hnb⟩ := sub_int_half _ _ (hsnake seg hseg).1 hax
      obtain ⟨m, hm, hmb⟩ := sub_int_half _ _ (hsnake seg hseg).2 haz
      rw [← Bool.not_eq_true, (distLt_grid _ _ n m hn hm hnb hmb).2.1,
        candidateCoord_eq_cellCentre, candidateCoord_eq_cellCentre]
      exact not_lt.mpr (hfar seg hseg)
    · rw [candidateCoord_eq_cellCentre, candidateCoord_eq_cellCentre]
      unfold cellCentre
      refine ⟨?_, ?_, ?_, ?_⟩ <;> norm_num <;> linarith

/-- The initial snake lies on the integer grid. -/
theorem initialSnake_grid : ∀ seg ∈ initialSnake, IntCoord 512 seg.x ∧ IntCoord 512 seg.z :=
  GridState_initialGlobals.1

/-- Counterexample to C6: the only segment is at exact distance below 1.0 from
the cell centre (-7.5, -7.5), but the rounded sum of squares is 1.0f, its
root 1.0f is not below 1.0f, and `spawnApple` with draws 0 appends the apple
at (-7.5, -7.5). -/
theorem spawnApple_accepts_near_segment :
    (spawnApple (fun _ => 0) skewState).1.apples = skewState.apples ++ [⟨-7.5, -7.5, true⟩] ∧
    ∃ seg ∈ skewState.snake,
      (seg.x - (-7.5)) * (seg.x - (-7.5)) + (seg.z - (-7.5)) * (seg.z - (-7.5)) < 1 := by
  have hcand : candidateCoord 0 = -15 / 2 := by rw [candidateCoord_eq]; norm_num
  have hdx : f32 (-13631489 / 2097152 - -15 / 2) = 2097151 / 2097152 := by
    have := f32_dyadic 2097151 (-21) (by norm_num) (by norm_num)
    norm_num [zpow_neg] at this ⊢
    exact this
  have hdz : f32 (-15726593 / 2097152 - -15 / 2) = 2047 / 2097152 := by
    have := f32_dyadic 2047 (-21) (by norm_num) (by norm_num)
    norm_num [zpow_neg] at this ⊢
    exact this
  have hdx2 : f32 (2097151 / 2097152 * (2097151 / 2097152)) = 1048575 / 1048576 := by
    have habs : |(2097151 / 2097152 * (2097151 / 2097152) : ℚ)| =
        2097151 / 2097152 * (2097151 / 2097152) := abs_of_pos (by norm_num)
    have he := ulpExp_eq (2097151 / 2097152 * (2097151 / 2097152)) (-1)
      (by rw [habs]; norm_num [zpow_neg]) (by rw [habs]; norm_num) (by norm_num)
    rw [f32_round _ (-24) 16777200 (by rw [he]; norm_num)
      (Or.inl (by norm_num [zpow_neg, abs_lt]))]
    norm_num [zpow_neg]
  have hdz2 : f32 (2047 / 2097152 * (2047 / 2097152)) = 4190209 / 4398046511104 := by
    have := f32_dyadic 4190209 (-42) (by norm_num) (by norm_num)
    norm_num [zpow_neg] at this ⊢
    exact this
  have hsum : f32 (1048575 / 1048576 + 4190209 / 4398046511104) = 1 := by
    have habs : |(1048575 / 1048576 + 4190209 / 4398046511104 : ℚ)| =
        1048575 / 1048576 + 4190209 / 4398046511104 := abs_of_pos (by norm_num)
    have he := ulpExp_eq (1048575 / 1048576 + 4190209 / 4398046511104) (-1)
      (by rw [habs]; norm_num [zpow_neg]) (by rw [habs]; norm_num) (by norm_num)
    rw [f32_round _ (-24) 16777216 (by rw [he]; norm_num)
      (Or.inl (by norm_num [zpow_neg, abs_lt]))]
    norm_num [zpow_neg]
  have hvalid : validPosition skewState.snake skewState.apples (candidateCoord 0)
      (candidateCoord 0) = true := by
    rw [validPosition_iff, hcand]
    refine ⟨?_, by simp [skewState], by norm_num⟩
    intro seg hseg
    simp only [skewState, List.mem_singleton] at hseg
    subst hseg
    simp only [distLt, hdx, hdz, hdx2, hdz2, hsum, f32_one, sqrtLt_one]
    norm_num
  constructor
  · have hloop := spawnLoop_first_valid skewState.snake skewState.apples (fun _ => 0) hvalid
    rw [spawnApple_apples _ _ (by simp [skewState, MAX_APPLES]), hloop, hcand]
    norm_num [Option.toList]
  · refine ⟨⟨-13631489 / 2097152, -15726593 / 2097152⟩, by simp [skewState], ?_⟩
    norm_num

/-- C6 (amended): `spawnApple` leaves the apple collection unchanged or
appends exactly one apple; an appended apple is active, has both coordinates
strictly between -9.5 and 9.5 and of the form k + 0.5 with integer k in
[-8, 7], and passed the float tests of the code: its float distance is not
below 1.0f from any snake segment and not below 2.0f from any apple already
in the collection.  On a grid state this is squared distance at least 1
(distance at least 1.0) from every snake segment and at least 4 (distance at
least 2.0) from every apple.  With MAX_APPLES or more apples nothing is
appended.  Snake, score, high score, direction and game state are never
changed, and the existing apples stay. -/
theorem spawnApple_spec (r : Rand) (s : Game) :
    (spawnApple r s).1.snake = s.snake ∧ (spawnApple r s).1.score = s.score ∧
    (spawnApple r s).1.highScore = s.highScore ∧
    (spawnApple r s).1.currentDir = s.currentDir ∧
    (spawnApple r s).1.gameState = s.gameState ∧
    ((spawnApple r s).1.apples = s.apples ∨
      ∃ a : Apple, (spawnApple r s).1.apples = s.apples ++ [a] ∧ a.active = true ∧
        (-9.5 < a.x ∧ a.x < 9.5 ∧ -9.5 < a.z ∧ a.z < 9.5) ∧
        (∃ k m : Int, -8 ≤ k ∧ k ≤ 7 ∧ -8 ≤ m ∧ m ≤ 7 ∧ a.x = k + 0.5 ∧ a.z = m + 0.5) ∧
        (∀ seg ∈ s.snake, distLt (seg.x - a.x) (seg.z - a.z) 1.0 = false) ∧
        (∀ b ∈ s.apples, distLt (b.x - a.x) (b.z - a.z) 2.0 = false) ∧
        (GridState s →
          (∀ seg ∈ s.snake,
            1 ≤ (seg.x - a.x) * (seg.x - a.x) + (seg.z - a.z) * (seg.z - a.z)) ∧
          (∀ b ∈ s.apples, 4 ≤ (b.x - a.x) * (b.x - a.x) + (b.z - a.z) * (b.z - a.z)))) ∧
    (MAX_APPLES ≤ s.apples.length → (spawnApple r s).1.apples = s.apples) := by
  rcases spawnApple_cases r s with h | ⟨a, r', hlt, hloop, h⟩
  · rw [h]; exact ⟨rfl, rfl, rfl, rfl, rfl, Or.inl rfl, fun _ => rfl⟩
  · rw [h]
    refine ⟨rfl, rfl, rfl, rfl, rfl, Or.inr ⟨a, rfl, ?_⟩, fun hge => absurd hlt (by omega)⟩
    obtain ⟨hact, ⟨d0, d1, hx, hz⟩, hv⟩ := spawnLoop_some _ _ _ _ _ _ hloop
    obtain ⟨hs, hb, hm⟩ := (validPosition_iff _ _ _ _).mp hv
    refine ⟨hact, hm, ⟨((d0 % 16 : Nat) : Int) - 8, ((d1 % 16 : Nat) : Int) - 8, ?_, ?_, ?_, ?_, ?_, ?_⟩,
      hs, hb, ?_⟩
    · omega
    · omega
    · omega
    · omega
    · rw [hx, candidateCoord_eq]; norm_num
    · rw [hz, candidateCoord_eq]; norm_num
    · intro hgrid
      have hax : HalfCoord 512 a.x := by
        rw [hx]; exact (candidateCoord_half d0).relax (by norm_num)
      have haz : HalfCoord 512 a.z := by
        rw [hz]; exact (candidateCoord_half d1).relax (by norm_num)
      have := validPosition_sound _ _ _ _ hgrid.1 hgrid.2 hax haz hv
      exact ⟨this.1, this.2.1⟩

/-- Witness of C6: on the initial globals with every draw 0, `spawnApple`
appends the apple at (-7.5, -7.5), at distance at least 1.0 from every
segment. -/
theorem spawnApple_spec_witness :
    GridState initialGlobals ∧
    (spawnApple (fun _ => 0) initialGlobals).1.apples = [⟨-7.5, -7.5, true⟩] ∧
    ∀ seg ∈ initialGlobals.snake,
      1 ≤ (seg.x - (-7.5)) * (seg.x - (-7.5)) + (seg.z - (-7.5)) * (seg.z - (-7.5)) := by
  have hfar : farFromSnake initialSnake (cellCentre 0) (cellCentre 0) := by
    intro seg hseg
    simp only [initialSnake, List.mem_cons, List.mem_singleton, List.not_mem_nil,
      or_false] at hseg
    rcases hseg with rfl | rfl | rfl <;> norm_num [cellCentre]
  have hvalid : validPosition initialGlobals.snake initialGlobals.apples
      (candidateCoord 0) (candidateCoord 0) = true :=
    (validPosition_candidate_iff _ initialSnake_grid 0 0).mpr hfar
  have happ : (spawnApple (fun _ => 0) initialGlobals).1.apples = [⟨-7.5, -7.5, true⟩] := by
    have hloop := spawnLoop_first_valid initialGlobals.snake initialGlobals.apples
      (fun _ => 0) hvalid
    rw [spawnApple_apples _ _ (by simp [initialGlobals, MAX_APPLES]), hloop, candidateCoord_eq]
    norm_num [Option.toList, initialGlobals]
  obtain ⟨_, _, _, _, _, h, _⟩ := spawnApple_spec (fun _ => 0) initialGlobals
  rcases h with h | ⟨a, ha, _, _, _, _, _, hgrid⟩
  · rw [happ] at h
    simp [initialGlobals] at h
  · rw [happ] at ha
    simp only [initialGlobals, List.nil_append, List.cons.injEq, and_true] at ha
    subst ha
    exact ⟨GridState_initialGlobals, happ, (hgrid GridState_initialGlobals).1⟩

/-- The result of `spawnApple` as a record: only the apple collection may
change, by at most one appended apple. -/
theorem spawnApple_appends (r : Rand) (g : Game) :
    ∃ spawned : List Apple, spawned.length ≤ 1 ∧
      (spawnApple r g).1 = { g with apples := g.apples ++ spawned } := by
  rcases spawnApple_cases r g with h | ⟨a, _, _, _, h⟩
  · exact ⟨[], by simp, by rw [h]; simp⟩
  · exact ⟨[a], by simp, h⟩

/-- The result of `spawnApple` as a record, with what the attempt loop
guarantees of an appended apple: it is active, on a cell centre, and its
float distance from every snake segment is not below 1.0f. -/
theorem spawnApple_appends_far (r : Rand) (g : Game) :
    ∃ spawned : List Apple, spawned.length ≤ 1 ∧
      (∀ n ∈ spawned, n.active = true ∧ HalfCoord 8 n.x ∧ HalfCoord 8 n.z ∧
        ∀ seg ∈ g.snake, distLt (seg.x - n.x) (seg.z - n.z) 1.0 = false) ∧
      (spawnApple r g).1 = { g with apples := g.apples ++ spawned } := by
  rcases spawnApple_cases r g with h | ⟨a, r', _, hloop, h⟩
  · exact ⟨[], by simp, by simp, by rw [h]; simp⟩
  · obtain ⟨hact, ⟨d0, d1, hx, hz⟩, hv⟩ := spawnLoop_some _ _ _ _ _ _ hloop
    refine ⟨[a], by simp, ?_, h⟩
    intro n hn
    rw [List.mem_singleton] at hn
    subst hn
    exact ⟨hact, by rw [hx]; exact candidateCoord_half d0, by rw [hz]; exact candidateCoord_half d1,
      ((validPosition_iff _ _ _ _).mp hv).1⟩

/-! ## C2, C3: checkAppleCollision -/

/-- A pair of differences that passes the test against 0.8f passes the test
against 1.0f. -/
theorem distLt_point8_one (dx dz : ℚ) (h : distLt dx dz 0.8 = true) : distLt dx dz 1.0 = true := by
  unfold distLt at h ⊢
  rw [f32_point8, sqrtLt_point8, decide_eq_true_eq] at h
  rw [f32_one, sqrtLt_one, decide_eq_true_eq]
  refine lt_trans h ?_
  norm_num

/-- The iterator loop: either it stops at the first apple that passes the
pickup test, having erased the inactive apples before it and that apple, or
no apple passes and exactly the inactive apples are erased. -/
theorem appleScan_touches (head : Segment) (apples kept : List Apple) :
    (∃ pre a post, apples = pre ++ a :: post ∧ touches head a = true ∧
        (∀ b ∈ pre, touches head b = false) ∧
        appleScan head kept apples = (true, kept ++ pre.filter (fun b => b.active) ++ post)) ∨
    ((∀ b ∈ apples, touches head b = false) ∧
        appleScan head kept apples = (false, kept ++ apples.filter (fun b => b.active))) := by
  induction apples generalizing kept with
  | nil => right; simp [appleScan]
  | cons a rest ih =>
    by_cases hact : a.active = true
    · by_cases hd : distLt (head.x - a.x) (head.z - a.z) 0.8 = true
      · left
        refine ⟨[], a, rest, rfl, by simp [touches, hact, hd], by simp, ?_⟩
        simp [appleScan, hact, hd]
      · have hd' : distLt (head.x - a.x) (head.z - a.z) 0.8 = false := by
          rw [← Bool.not_eq_true]; exact hd
        have hnot : touches head a = false := by simp [touches, hd']
        rcases ih (kept ++ [a]) with ⟨pre, b, post, rfl, hb, hpre, hscan⟩ | ⟨hnone, hscan⟩
        · left
          refine ⟨a :: pre, b, post, rfl, hb, ?_, ?_⟩
          · intro c hc
            rcases List.mem_cons.mp hc with rfl | hc
            · exact hnot
            · exact hpre c hc
          · simp [appleScan, hact, hd', hscan]
        · right
          refine ⟨?_, ?_⟩
          · intro c hc
            rcases List.mem_cons.mp hc with rfl | hc
            · exact hnot
            · exact hnone c hc
          · simp [appleScan, hact, hd', hscan]
    · have hnot : touches head a = false := by simp [touches, hact]
      rcases ih kept with ⟨pre, b, post, rfl, hb, hpre, hscan⟩ | ⟨hnone, hscan⟩
      · left
        refine ⟨a :: pre, b, post, rfl, hb, ?_, ?_⟩
        · intro c hc
          rcases List.mem_cons.mp hc with rfl | hc
          · exact hnot
          · exact hpre c hc
        · simp [appleScan, hact, hscan]
      · right
        refine ⟨?_, ?_⟩
        · intro c hc
          rcases List.mem_cons.mp hc with rfl | hc
          · exact hnot
          · exact hnone c hc
        · simp [appleScan, hact, hscan]

/-- The iterator loop on the grid, in terms of the exact distance: it stops at
the first active apple at distance below 0.8 from the head. -/
theorem appleScan_spec (head : Segment) (apples kept : List Apple)
    (hhx : IntCoord 512 head.x) (hhz : IntCoord 512 head.z)
    (happles : ∀ a ∈ apples, HalfCoord 512 a.x ∧ HalfCoord 512 a.z) :
    (∃ pre a post, apples = pre ++ a :: post ∧ inRange head a ∧ (∀ b ∈ pre, ¬ inRange head b) ∧
        appleScan head kept apples = (true, kept ++ pre.filter (fun b => b.active) ++ post)) ∨
    ((∀ b ∈ apples, ¬ inRange head b) ∧
        appleScan head kept apples = (false, kept ++ apples.filter (fun b => b.active))) := by
  have hiff : ∀ a ∈ apples, (touches head a = true ↔ inRange head a) := fun a ha =>
    touches_iff_inRange head a hhx hhz (happles a ha).1 (happles a ha).2
  rcases appleScan_touches head apples kept with
    ⟨pre, a, post, hap, hin, hpre, hscan⟩ | ⟨hnone, hscan⟩
  · left
    refine ⟨pre, a, post, hap, (hiff a (by rw [hap]; simp)).mp hin, ?_, hscan⟩
    intro b hb hr
    have := (hiff b (by rw [hap]; simp [hb])).mpr hr
    rw [hpre b hb] at this
    exact Bool.false_ne_true this
  · right
    refine ⟨?_, hscan⟩
    intro b hb hr
    have := (hiff b hb).mpr hr
    rw [hnone b hb] at this
    exact Bool.false_ne_true this

/-- The body of `checkAppleCollision` past its guard. -/
theorem checkAppleCollision_eq (r : Rand) (s : Game) (head : Segment) (rest : List Segment)
    (hplay : s.gameState = GameState.PLAYING) (hsnake : s.snake = head :: rest) :
    checkAppleCollision r s =
      match appleScan head [] s.apples with
      | (true, apples') =>
        spawnApple r { s with score := s.score + 1,
                              highScore := if s.score + 1 > s.highScore then s.score + 1
                                           else s.highScore,
                              snake := s.snake ++ [newSegment s.snake (by simp [hsnake])],
                              apples := apples' }
      | (false, apples') => ({ s with apples := apples' }, r) := by
  unfold checkAppleCollision
  split
  · next h => rw [hsnake] at h; cases h
  · next head' rest' h =>
    have hh : head' = head := by rw [hsnake] at h; injection h with h1 _; exact h1.symm
    subst hh
    simp [hplay]

/-- The segment appended to a snake ending in `.., b, t`, as the code computes
it in float. -/
theorem newSegment_rounded (pre : List Segment) (b t : Segment) (h : pre ++ [b, t] ≠ []) :
    newSegment (pre ++ [b, t]) h =
      ⟨f32 (t.x + f32 (t.x - b.x)), f32 (t.z + f32 (t.z - b.z))⟩ := by
  have hlast : (pre ++ [b, t]).getLast h = t := by
    simp [List.getLast_append]
  have hlen : (pre ++ [b, t]).length - 2 = pre.length := by simp
  have hb : ∀ (i : Nat) (hi : i < (pre ++ [b, t]).length), i = pre.length →
      (pre ++ [b, t]).get ⟨i, hi⟩ = b := by
    intro i hi he
    subst he
    simp [List.getElem_append_right]
  unfold newSegment
  have h1 : (pre ++ [b, t]).length > 1 := by simp
  simp only [h1, dite_true, hlast]
  rw [hb _ _ hlen]

/-- The segment appended to a snake ending in `.., b, t` with integer
coordinates of magnitude at most 2^22 is `t + (t - b)`. -/
theorem newSegment_extrapolate (pre : List Segment) (b t : Segment) (h : pre ++ [b, t] ≠ [])
    (hbx : IntCoord 4194304 b.x) (hbz : IntCoord 4194304 b.z)
    (htx : IntCoord 4194304 t.x) (htz : IntCoord 4194304 t.z) :
    newSegment (pre ++ [b, t]) h = ⟨t.x + (t.x - b.x), t.z + (t.z - b.z)⟩ := by
  rw [newSegment_rounded, extrapolate_exact _ _ hbx htx, extrapolate_exact _ _ hbz htz]

/-- The state after `checkAppleCollision` when the loop eats an apple. -/
theorem checkAppleCollision_eaten (r : Rand) (s : Game) (head : Segment) (rest : List Segment)
    (hplay : s.gameState = GameState.PLAYING) (hsnake : s.snake = head :: rest)
    (apples' : List Apple) (hscan : appleScan head [] s.apples = (true, apples')) :
    ∃ spawned : List Apple, spawned.length ≤ 1 ∧
      (∀ n ∈ spawned, n.active = true ∧ HalfCoord 8 n.x ∧ HalfCoord 8 n.z ∧
        touches head n = false) ∧
      (checkAppleCollision r s).1 =
        { s with score := s.score + 1, highScore := max s.highScore (s.score + 1),
                 snake := s.snake ++ [newSegment s.snake (by simp [hsnake])],
                 apples := apples' ++ spawned } := by
  rw [checkAppleCollision_eq r s head rest hplay hsnake, hscan]
  simp only
  obtain ⟨spawned, hlen, hfar, hsp⟩ := spawnApple_appends_far r
    { s with score := s.score + 1,
             highScore := if s.score + 1 > s.highScore then s.score + 1 else s.highScore,
             snake := s.snake ++ [newSegment s.snake (by simp [hsnake])],
             apples := apples' }
  refine ⟨spawned, hlen, ?_, ?_⟩
  · intro n hn
    obtain ⟨hact, hnx, hnz, hall⟩ := hfar n hn
    refine ⟨hact, hnx, hnz, ?_⟩
    have h1 := hall head (by simp [hsnake])
    unfold touches
    rw [Bool.and_eq_false_iff]
    right
    rw [← Bool.not_eq_true] at h1 ⊢
    exact fun h8 => h1 (distLt_point8_one _ _ h8)
  · rw [hsp]
    have hmax : (if s.score + 1 > s.highScore then s.score + 1 else s.highScore)
        = max s.highScore (s.score + 1) := by
      split
      · next h => exact (max_eq_right (le_of_lt h)).symm
      · next h => exact (max_eq_left (not_lt.mp h)).symm
    simp only [hmax]

/-- The state after `checkAppleCollision` when the loop eats no apple. -/
theorem checkAppleCollision_missed (r : Rand) (s : Game) (head : Segment) (rest : List Segment)
    (hplay : s.gameState = GameState.PLAYING) (hsnake : s.snake = head :: rest)
    (apples' : List Apple) (hscan : appleScan head [] s.apples = (false, apples')) :
    checkAppleCollision r s = ({ s with apples := apples' }, r) := by
  rw [checkAppleCollision_eq r s head rest hplay hsnake, hscan]

/-- C4: for a state with snake `head :: rest`, `checkWallCollision` holds
exactly when the head's x or z is at most -10 or at least 10,
`checkSelfCollision` exactly when some segment at an index `i ≥ 1` has both
coordinates equal to the head's; `checkGameOver` sets the game state to
GAME_OVER, changing nothing else, when one of the two holds, and returns the
state as it was otherwise. -/
theorem checkGameOver_spec (s : Game) (head : Segment) (rest : List Segment)
    (hsnake : s.snake = head :: rest) :
    (checkWallCollision s = true ↔
      (head.x ≤ -10 ∨ head.x ≥ 10 ∨ head.z ≤ -10 ∨ head.z ≥ 10)) ∧
    (checkSelfCollision s = true ↔
      ∃ i seg, 1 ≤ i ∧ s.snake[i]? = some seg ∧ seg.x = head.x ∧ seg.z = head.z) ∧
    (((head.x ≤ -10 ∨ head.x ≥ 10 ∨ head.z ≤ -10 ∨ head.z ≥ 10) ∨
        ∃ i seg, 1 ≤ i ∧ s.snake[i]? = some seg ∧ seg.x = head.x ∧ seg.z = head.z) →
      checkGameOver s = { s with gameState := GameState.GAME_OVER }) ∧
    (¬ ((head.x ≤ -10 ∨ head.x ≥ 10 ∨ head.z ≤ -10 ∨ head.z ≥ 10) ∨
        ∃ i seg, 1 ≤ i ∧ s.snake[i]? = some seg ∧ seg.x = head.x ∧ seg.z = head.z) →
      checkGameOver s = s) := by
  have hwall : checkWallCollision s = true ↔
      (head.x ≤ -10 ∨ head.x ≥ 10 ∨ head.z ≤ -10 ∨ head.z ≥ 10) := by
    simp [checkWallCollision, hsnake]
  have hself : checkSelfCollision s = true ↔
      ∃ i seg, 1 ≤ i ∧ s.snake[i]? = some seg ∧ seg.x = head.x ∧ seg.z = head.z := by
    simp only [checkSelfCollision, hsnake, List.any_eq_true, Bool.and_eq_true, decide_eq_true_eq]
    constructor
    · rintro ⟨seg, hmem, hx, hz⟩
      obtain ⟨j, hj⟩ := List.getElem?_of_mem hmem
      exact ⟨j + 1, seg, by omega, by simpa using hj, hx.symm, hz.symm⟩
    · rintro ⟨i, seg, hi, hget, hx, hz⟩
      obtain ⟨j, rfl⟩ : ∃ j, i = j + 1 := ⟨i - 1, by omega⟩
      rw [List.getElem?_cons_succ] at hget
      exact ⟨seg, List.getElem?_mem hget, hx.symm, hz.symm⟩
  refine ⟨hwall, hself, ?_, ?_⟩
  · intro h
    have : (checkWallCollision s || checkSelfCollision s) = true := by
      rcases h with h | h
      · simp [hwall.mpr h]
      · simp [hself.mpr h]
    simp [checkGameOver, this]
  · intro h
    have : (checkWallCollision s || checkSelfCollision s) = false := by
      rw [Bool.or_eq_false_iff]
      refine ⟨?_, ?_⟩
      · rw [← Bool.not_eq_true]; exact fun hw => h (Or.inl (hwall.mp hw))
      · rw [← Bool.not_eq_true]; exact fun hs => h (Or.inr (hself.mp hs))
    simp [checkGameOver, this]

/-- Witness of C4: with the head at x = 10 the game is over. -/
theorem checkGameOver_spec_witness :
    checkGameOver wallState = { wallState with gameState := GameState.GAME_OVER } :=
  (checkGameOver_spec wallState ⟨10, 0⟩ [⟨9, 0⟩, ⟨8, 0⟩] rfl).2.2.1
    (Or.inl (Or.inr (Or.inl (le_refl (10 : ℚ)))))

/-! ## C5: specialKeys -/

/-- C5: a directional input `d` sets `currentDir` to `d` when the game is
PLAYING and `d` is not the opposite of the current direction, and leaves
`currentDir` as it was in every other case; snake, apples, score, high score
and game state are never changed.  With `currentDir = UP` while PLAYING, DOWN
is rejected and LEFT and RIGHT are taken. -/
theorem specialKeys_spec (s : Game) (d : Direction) :
    ((s.gameState = GameState.PLAYING ∧ d ≠ opposite s.currentDir) →
      (specialKeys (keyOf d) s).currentDir = d) ∧
    (¬ (s.gameState = GameState.PLAYING ∧ d ≠ opposite s.currentDir) →
      (specialKeys (keyOf d) s).currentDir = s.currentDir) ∧
    (specialKeys (keyOf d) s).snake = s.snake ∧
    (specialKeys (keyOf d) s).apples = s.apples ∧
    (specialKeys (keyOf d) s).score = s.score ∧
    (specialKeys (keyOf d) s).highScore = s.highScore ∧
    (specialKeys (keyOf d) s).gameState = s.gameState ∧
    ((s.gameState = GameState.PLAYING ∧ s.currentDir = Direction.UP) →
      (specialKeys (keyOf Direction.DOWN) s).currentDir = Direction.UP ∧
      (specialKeys (keyOf Direction.LEFT) s).currentDir = Direction.LEFT ∧
      (specialKeys (keyOf Direction.RIGHT) s).currentDir = Direction.RIGHT) := by
  obtain ⟨gs, cd, sn, ap, sc, hs⟩ := s
  cases gs <;> cases cd <;> cases d <;>
    simp [specialKeys, keyOf, opposite, GLUT_KEY_UP, GLUT_KEY_DOWN, GLUT_KEY_LEFT, GLUT_KEY_RIGHT]

/-! ## C7: restart -/

/-- The state after `resetGame`: the initial snake heading UP, score 0,
PLAYING, at most one apple, the high score untouched. -/
theorem resetGame_eq (r : Rand) (s : Game) :
    ∃ spawned : List Apple, spawned.length ≤ 1 ∧
      (resetGame r s).1 =
        { gameState := GameState.PLAYING, currentDir := Direction.UP, snake := initialSnake,
          apples := spawned, score := 0, highScore := s.highScore } := by
  obtain ⟨spawned, hlen, hsp⟩ := spawnApple_appends r
    { s with snake := initialSnake, currentDir := Direction.UP, apples := [] }
  refine ⟨spawned, hlen, ?_⟩
  simp only [resetGame, initApples]
  rw [hsp]
  rfl

/-- C7: in a GAME_OVER state the space key (code 32) yields the snake
[(0,0),(0,1),(0,2)], direction UP, score 0, state PLAYING and the high score
it had before; in a PLAYING state the space key changes nothing. -/
theorem keyboard_restart (r : Rand) (s : Game) :
    (s.gameState = GameState.GAME_OVER →
      (keyboard 32 r s).1.snake = [⟨0, 0⟩, ⟨0, 1⟩, ⟨0, 2⟩] ∧
      (keyboard 32 r s).1.currentDir = Direction.UP ∧
      (keyboard 32 r s).1.score = 0 ∧
      (keyboard 32 r s).1.gameState = GameState.PLAYING ∧
      (keyboard 32 r s).1.highScore = s.highScore) ∧
    (s.gameState = GameState.PLAYING → keyboard 32 r s = (s, r)) := by
  refine ⟨fun h => ?_, fun h => ?_⟩
  · obtain ⟨spawned, _, hres⟩ := resetGame_eq r s
    simp only [keyboard, h, and_self, if_true]
    rw [hres]
    exact ⟨rfl, rfl, rfl, rfl, rfl⟩
  · simp [keyboard, h]

/-- Witness of C7: restarting after score 5 / high score 5 gives score 0 /
high score 5. -/
theorem keyboard_restart_witness :
    (keyboard 32 (fun _ => 0) finishedState).1.score = 0 ∧
    (keyboard 32 (fun _ => 0) finishedState).1.highScore = 5 :=
  ⟨((keyboard_restart (fun _ => 0) finishedState).1 rfl).2.2.1,
   ((keyboard_restart (fun _ => 0) finishedState).1 rfl).2.2.2.2⟩

/-! ## C9: initApples -/

/-- The attempt loop ends without an apple exactly when all its candidates
are invalid; attempt `i` uses the draws `2 * i` and `2 * i + 1`. -/
theorem spawnLoop_none_iff (snake : List Segment) (apples : List Apple) (n : Nat) (r : Rand) :
    (spawnLoop snake apples n r).1 = none ↔
      ∀ i < n, validPosition snake apples (candidateCoord (r (2 * i)))
        (candidateCoord (r (2 * i + 1))) = false := by
  induction n generalizing r with
  | zero => simp [spawnLoop]
  | succ n ih =>
    simp only [spawnLoop]
    split
    · next hv =>
      simp only [reduceCtorEq, false_iff, not_forall]
      exact ⟨0, Nat.succ_pos n, by simp [hv]⟩
    · next hv =>
      rw [ih]
      constructor
      · intro h i hi
        cases i with
        | zero => simpa using hv
        | succ j =>
          have := h j (by omega)
          simp only [Rand.after] at this
          rw [show 2 * (j + 1) = 2 * j + 2 by ring, show 2 * j + 2 + 1 = 2 * j + 1 + 2 by ring]
          exact this
      · intro h i hi
        have := h (i + 1) (by omega)
        simp only [Rand.after]
        rw [show 2 * (i + 1) = 2 * i + 2 by ring, show 2 * i + 2 + 1 = 2 * i + 1 + 2 by ring] at this
        exact this

/-- The apples after `initApples` are the result of one run of the attempt
loop against the snake and an empty collection. -/
theorem initApples_apples (r : Rand) (s : Game) :
    (initApples r s).1.apples = (spawnLoop s.snake [] 100 r).1.toList := by
  unfold initApples
  rw [spawnApple_apples r _ (by simp [MAX_APPLES])]
  simp

/-- Counterexample to C9: when every draw is 8 every candidate is (0.5, 0.5),
closer than 1.0 to the segment (0,0); all 100 attempts fail and the fresh
game has no apple. -/
theorem initApples_may_spawn_nothing :
    (initApples (fun _ => 8) initialGlobals).1.apples = [] ∧
    (initApples (fun _ => 8) initialGlobals).1.apples.length ≠ 1 := by
  have hnone : (spawnLoop initialGlobals.snake [] 100 (fun _ => 8)).1 = none := by
    rw [spawnLoop_none_iff]
    intro i _
    show validPosition initialSnake [] (candidateCoord 8) (candidateCoord 8) = false
    rw [← Bool.not_eq_true, validPosition_candidate_iff _ initialSnake_grid]
    intro hfar
    have := hfar ⟨0, 0⟩ (by simp [initialSnake])
    norm_num [cellCentre] at this
  rw [initApples_apples, hnone]
  simp

/-- The attempt loop returns the first valid candidate, and none when all its
candidates are invalid; attempt `i` uses the draws `2 * i` and `2 * i + 1`. -/
theorem spawnLoop_first (snake : List Segment) (apples : List Apple) (n : Nat) (r : Rand) :
    ((spawnLoop snake apples n r).1 = none ∧
      ∀ i < n, validPosition snake apples (candidateCoord (r (2 * i)))
        (candidateCoord (r (2 * i + 1))) = false) ∨
    ∃ i < n,
      validPosition snake apples (candidateCoord (r (2 * i)))
        (candidateCoord (r (2 * i + 1))) = true ∧
      (∀ j < i, validPosition snake apples (candidateCoord (r (2 * j)))
        (candidateCoord (r (2 * j + 1))) = false) ∧
      (spawnLoop snake apples n r).1 =
        some ⟨candidateCoord (r (2 * i)), candidateCoord (r (2 * i + 1)), true⟩ := by
  induction n generalizing r with
  | zero => left; exact ⟨rfl, fun i hi => absurd hi (Nat.not_lt_zero i)⟩
  | succ n ih =>
    have hshift : ∀ i, (r.after 2) (2 * i) = r (2 * (i + 1)) ∧
        (r.after 2) (2 * i + 1) = r (2 * (i + 1) + 1) := by
      intro i
      simp only [Rand.after]
      exact ⟨congrArg r (by ring), congrArg r (by ring)⟩
    simp only [spawnLoop]
    split
    · next hv =>
      right
      exact ⟨0, Nat.succ_pos n, by simpa using hv, fun j hj => absurd hj (Nat.not_lt_zero j), rfl⟩
    · next hv =>
      have hv0 : validPosition snake apples (candidateCoord (r (2 * 0)))
          (candidateCoord (r (2 * 0 + 1))) = false := by simpa using hv
      rcases ih (r.after 2) with ⟨hnone, hall⟩ | ⟨i, hi, hvi, hbefore, hres⟩
      · left
        refine ⟨hnone, fun i hi => ?_⟩
        cases i with
        | zero => exact hv0
        | succ j =>
          have := hall j (by omega)
          rw [(hshift j).1, (hshift j).2] at this
          exact this
      · right
        refine ⟨i + 1, by omega, ?_, ?_, ?_⟩
        · rw [(hshift i).1, (hshift i).2] at hvi
          exact hvi
        · intro j hj
          cases j with
          | zero => exact hv0
          | succ k =>
            have := hbefore k (by omega)
            rw [(hshift k).1, (hshift k).2] at this
            exact this
        · rw [hres, (hshift i).1, (hshift i).2]

/-- C9 (amended): for the initial snake and every sequence of draws, after
`initApples`, and after `resetGame` from any state under the same draws, the
apple collection is empty or holds exactly one apple, which is active; it
holds one apple exactly when one of the 100 candidates drawn is at distance at
least 1.0 from every segment of the initial snake, and the apple is then the
first such candidate. -/
theorem initApples_count (r : Rand) (s t : Game) (hs : s.snake = initialSnake) :
    (resetGame r t).1.apples = (initApples r s).1.apples ∧
    ((initApples r s).1.apples = [] ∨
      ∃ a, (initApples r s).1.apples = [a] ∧ a.active = true) ∧
    ((∃ a, (initApples r s).1.apples = [a]) ↔
      ∃ i < 100, farFromSnake initialSnake (cellCentre (r (2 * i)))
        (cellCentre (r (2 * i + 1)))) ∧
    (∀ i < 100,
      farFromSnake initialSnake (cellCentre (r (2 * i))) (cellCentre (r (2 * i + 1))) →
      (∀ j < i, ¬ farFromSnake initialSnake (cellCentre (r (2 * j)))
        (cellCentre (r (2 * j + 1)))) →
      (initApples r s).1.apples =
        [⟨cellCentre (r (2 * i)), cellCentre (r (2 * i + 1)), true⟩]) := by
  have hre : (resetGame r t).1.apples = (initApples r s).1.apples := by
    simp only [resetGame]
    rw [initApples_apples, initApples_apples, hs]
  have hvalid : ∀ i, validPosition initialSnake [] (candidateCoord (r (2 * i)))
      (candidateCoord (r (2 * i + 1))) = false ↔
      ¬ farFromSnake initialSnake (cellCentre (r (2 * i))) (cellCentre (r (2 * i + 1))) := by
    intro i
    rw [← validPosition_candidate_iff _ initialSnake_grid, Bool.not_eq_true]
  refine ⟨hre, ?_, ?_, ?_⟩
  · rw [initApples_apples, hs]
    rcases spawnLoop_first initialSnake [] 100 r with ⟨hnone, _⟩ | ⟨i, _, _, _, hres⟩
    · left; rw [hnone]; rfl
    · right; rw [hres]; exact ⟨_, rfl, rfl⟩
  · rw [initApples_apples, hs]
    rcases spawnLoop_first initialSnake [] 100 r with ⟨hnone, hall⟩ | ⟨i, hi, hvi, _, hres⟩
    · rw [hnone]
      constructor
      · rintro ⟨a, ha⟩
        simp [Option.toList] at ha
      · rintro ⟨i, hi, hfar⟩
        exact absurd hfar ((hvalid i).mp (hall i hi))
    · rw [hres]
      constructor
      · intro _
        exact ⟨i, hi, (validPosition_candidate_iff _ initialSnake_grid _ _).mp hvi⟩
      · intro _
        exact ⟨_, rfl⟩
  · intro i hi hfar hbefore
    rw [initApples_apples, hs]
    rcases spawnLoop_first initialSnake [] 100 r with ⟨_, hall⟩ | ⟨k, hk, hvk, hkbefore, hres⟩
    · exact absurd hfar ((hvalid i).mp (hall i hi))
    · have hik : i = k := by
        rcases Nat.lt_trichotomy i k with h | h | h
        · exact absurd hfar ((hvalid i).mp (hkbefore i h))
        · exact h
        · exact absurd ((validPosition_candidate_iff _ initialSnake_grid _ _).mp hvk) (hbefore k h)
      subst hik
      rw [hres, candidateCoord_eq_cellCentre, candidateCoord_eq_cellCentre]
      rfl

/-- Witness of C9 (amended): restarting the finished game when every draw is 0
leaves the single apple (-7.5, -7.5), the first candidate. -/
theorem initApples_count_witness :
    (resetGame (fun _ => 0) finishedState).1.apples = [⟨cellCentre 0, cellCentre 0, true⟩] := by
  have hfar : farFromSnake initialSnake (cellCentre 0) (cellCentre 0) := by
    intro seg hseg
    simp only [initialSnake, List.mem_cons, List.mem_singleton, List.not_mem_nil,
      or_false] at hseg
    rcases hseg with rfl | rfl | rfl <;> norm_num [cellCentre]
  have h := initApples_count (fun _ => 0) initialGlobals finishedState rfl
  rw [h.1]
  exact h.2.2.2 0 (by norm_num) hfar (fun j hj => absurd hj (Nat.not_lt_zero j))

/-! ## C8: the first tick -/

theorem checkGameOver_snake (s : Game) : (checkGameOver s).snake = s.snake := by
  unfold checkGameOver
  split <;> rfl

/-- The apples of `initApples` are on cell centres. -/
theorem initApples_grid (r : Rand) (s : Game) :
    ∀ a ∈ (initApples r s).1.apples, HalfCoord 512 a.x ∧ HalfCoord 512 a.z := by
  intro a ha
  rw [initApples_apples] at ha
  cases hloop : spawnLoop s.snake [] 100 r with
  | mk o r' =>
    rw [hloop] at ha
    cases o with
    | none => simp at ha
    | some b =>
      simp only [Option.toList, List.mem_singleton] at ha
      subst ha
      obtain ⟨_, ⟨d0, d1, hx, hz⟩, _⟩ := spawnLoop_some _ _ _ _ _ _ hloop
      rw [hx, hz]
      exact ⟨(candidateCoord_half d0).relax (by norm_num), (candidateCoord_half d1).relax (by norm_num)⟩

/-- One tick of a PLAYING state with snake `head :: rest`, the head on the
integer grid. -/
theorem update_eq (r : Rand) (s : Game) (head : Segment) (rest : List Segment)
    (hplay : s.gameState = GameState.PLAYING) (hsnake : s.snake = head :: rest)
    (hx : IntCoord 16777215 head.x) (hz : IntCoord 16777215 head.z) :
    update r s =
      some (checkGameOver (checkAppleCollision r
              { s with snake := stepIn s.currentDir head :: (head :: rest).dropLast }).1,
            (checkAppleCollision r
              { s with snake := stepIn s.currentDir head :: (head :: rest).dropLast }).2) := by
  simp only [update, hplay, if_true, moveSnake_eq s head rest hplay hsnake hx hz]

/-- The snake after the first tick of a fresh game, by whether the apple scan
of `checkAppleCollision` eats an apple at the new head (0,-1). -/
theorem freshGame_update (apples : List Apple) (hi : Int) (r : Rand)
    (happles : ∀ a ∈ apples, HalfCoord 512 a.x ∧ HalfCoord 512 a.z) :
    ∃ s1 r1, update r (freshGame apples hi) = some (s1, r1) ∧
      ((∀ a ∈ apples, ¬ inRange ⟨0, -1⟩ a) → s1.snake = [⟨0, -1⟩, ⟨0, 0⟩, ⟨0, 1⟩]) ∧
      ((∃ a ∈ apples, inRange ⟨0, -1⟩ a) →
        s1.snake = [⟨0, -1⟩, ⟨0, 0⟩, ⟨0, 1⟩, ⟨0, 2⟩]) := by
  have hmoved : ({ freshGame apples hi with
      snake := stepIn (freshGame apples hi).currentDir ⟨0, 0⟩ ::
        ([⟨0, 0⟩, ⟨0, 1⟩, ⟨0, 2⟩] : List Segment).dropLast } : Game) =
      { freshGame apples hi with snake := [⟨0, -1⟩, ⟨0, 0⟩, ⟨0, 1⟩] } := by
    simp [freshGame, stepIn, List.dropLast]
  have h0 : IntCoord 16777215 (0 : ℚ) := ⟨0, by norm_num, by norm_num⟩
  have hh0 : IntCoord 512 (0 : ℚ) := ⟨0, by norm_num, by norm_num⟩
  have hh1 : IntCoord 512 (-1 : ℚ) := ⟨-1, by norm_num, by norm_num⟩
  rw [update_eq r (freshGame apples hi) ⟨0, 0⟩ [⟨0, 1⟩, ⟨0, 2⟩] rfl rfl h0 h0, hmoved]
  refine ⟨_, _, rfl, ?_, ?_⟩
  · intro hno
    rw [checkGameOver_snake]
    rcases appleScan_spec ⟨0, -1⟩ apples [] hh0 hh1 happles with
      ⟨pre, a, post, hap, hin, _, _⟩ | ⟨_, hscan⟩
    · exact absurd hin (hno a (by rw [hap]; simp))
    · rw [checkAppleCollision_missed r _ ⟨0, -1⟩ [⟨0, 0⟩, ⟨0, 1⟩] rfl rfl _ hscan]
  · rintro ⟨a, ha, hin⟩
    rw [checkGameOver_snake]
    rcases appleScan_spec ⟨0, -1⟩ apples [] hh0 hh1 happles with
      ⟨pre, b, post, _, _, _, hscan⟩ | ⟨hnone, _⟩
    · obtain ⟨spawned, _, _, hres⟩ :=
        checkAppleCollision_eaten r { freshGame apples hi with snake := [⟨0, -1⟩, ⟨0, 0⟩, ⟨0, 1⟩] }
          ⟨0, -1⟩ [⟨0, 0⟩, ⟨0, 1⟩] rfl rfl _ hscan
      rw [hres]
      have hseg := newSegment_extrapolate [⟨0, -1⟩] ⟨0, 0⟩ ⟨0, 1⟩ (by simp)
        ⟨0, by norm_num, by norm_num⟩ ⟨0, by norm_num, by norm_num⟩
        ⟨0, by norm_num, by norm_num⟩ ⟨1, by norm_num, by norm_num⟩
      norm_num at hseg
      simp only [List.cons_append, List.nil_append] at hseg ⊢
      rw [hseg]
    · exact absurd hin (hnone a ha)

/-- Counterexample to C8: with first draws 8 and 6 the fresh game's apple is
at (0.5, -1.5), at distance below 0.8 from the new head (0,-1); the first tick
eats it and the snake has four segments, the tail (0,2) put back by growth. -/
theorem first_tick_may_grow :
    (initApples nearHeadDraws initialGlobals).1.apples = [⟨0.5, -1.5, true⟩] ∧
    ∃ s1 r1, update (initApples nearHeadDraws initialGlobals).2
        (freshGame (initApples nearHeadDraws initialGlobals).1.apples 0) = some (s1, r1) ∧
      s1.snake = [⟨0, -1⟩, ⟨0, 0⟩, ⟨0, 1⟩, ⟨0, 2⟩] ∧
      s1.snake ≠ [⟨0, -1⟩, ⟨0, 0⟩, ⟨0, 1⟩] := by
  have hvalid : validPosition initialGlobals.snake [] (candidateCoord (nearHeadDraws 0))
      (candidateCoord (nearHeadDraws 1)) = true := by
    show validPosition initialSnake [] (candidateCoord (nearHeadDraws 0))
      (candidateCoord (nearHeadDraws 1)) = true
    rw [validPosition_candidate_iff _ initialSnake_grid]
    intro seg hseg
    simp only [initialSnake, List.mem_cons, List.mem_singleton, List.not_mem_nil,
      or_false] at hseg
    rcases hseg with rfl | rfl | rfl <;> norm_num [cellCentre, nearHeadDraws]
  have happles : (initApples nearHeadDraws initialGlobals).1.apples = [⟨0.5, -1.5, true⟩] := by
    rw [initApples_apples]
    have hloop : (spawnLoop initialGlobals.snake [] 100 nearHeadDraws).1 =
        some ⟨candidateCoord (nearHeadDraws 0), candidateCoord (nearHeadDraws 1), true⟩ := by
      rw [show (100 : Nat) = 99 + 1 from rfl, spawnLoop, if_pos hvalid]
    rw [hloop]
    simp only [Option.toList, candidateCoord_eq, nearHeadDraws]
    norm_num
  refine ⟨happles, ?_⟩
  rw [happles]
  obtain ⟨s1, r1, hup, _, hgrow⟩ :=
    freshGame_update [⟨0.5, -1.5, true⟩] 0 (initApples nearHeadDraws initialGlobals).2
      (by
        intro a ha
        rw [List.mem_singleton] at ha
        subst ha
        exact ⟨⟨0, by norm_num, by norm_num, by norm_num⟩, ⟨-2, by norm_num, by norm_num, by norm_num⟩⟩)
  have hsn := hgrow ⟨⟨0.5, -1.5, true⟩, by simp, by norm_num [inRange]⟩
  exact ⟨s1, r1, hup, hsn, by rw [hsn]; simp⟩

/-- In a fresh game an active apple is at distance below 0.8 from (0,-1)
exactly when the collection is the single apple at (0.5,-1.5) or at
(-0.5,-1.5): the two other cell centres in range, (0.5,-0.5) and (-0.5,-0.5),
are closer than 1.0 to the segment (0,0) and are never spawned. -/
theorem fresh_apple_in_range_iff (r : Rand) :
    (∃ a ∈ (initApples r initialGlobals).1.apples, inRange ⟨0, -1⟩ a) ↔
      ((initApples r initialGlobals).1.apples = [⟨0.5, -1.5, true⟩] ∨
       (initApples r initialGlobals).1.apples = [⟨-0.5, -1.5, true⟩]) := by
  constructor
  · rintro ⟨a, hmem, _, hlt⟩
    rw [initApples_apples] at hmem ⊢
    cases hloop : spawnLoop initialGlobals.snake [] 100 r with
    | mk o r' =>
      rw [hloop] at hmem
      cases o with
      | none => simp at hmem
      | some b =>
        simp only [Option.toList, List.mem_singleton] at hmem
        subst hmem
        obtain ⟨hact, ⟨d0, d1, hx, hz⟩, hv⟩ := spawnLoop_some _ _ _ _ _ _ hloop
        rw [hx, hz] at hv
        obtain ⟨hsn, _, _⟩ := validPosition_sound _ _ _ _ GridState_initialGlobals.1 (by simp)
          ((candidateCoord_half d0).relax (by norm_num))
          ((candidateCoord_half d1).relax (by norm_num)) hv
        have h00 := hsn ⟨0, 0⟩ (by simp [initialGlobals, initialSnake])
        rw [candidateCoord_eq] at hx hz h00
        rw [candidateCoord_eq] at h00
        generalize ((d0 % 16 : Nat) : Int) - 8 = k at hx h00
        generalize ((d1 % 16 : Nat) : Int) - 8 = m at hz h00
        clear hv hsn
        obtain ⟨ax, az, act⟩ := a
        simp only at hact hx hz hlt h00
        subst hact hx hz
        have hk : k = -1 ∨ k = 0 := by
          have h1 : (k : ℚ) < 1 := by nlinarith [mul_self_nonneg ((-1 : ℚ) - ((m : ℚ) + 1 / 2))]
          have h2 : (-2 : ℚ) < k := by nlinarith [mul_self_nonneg ((-1 : ℚ) - ((m : ℚ) + 1 / 2))]
          have h1' : k < 1 := by exact_mod_cast h1
          have h2' : -2 < k := by exact_mod_cast h2
          omega
        have hm : m = -2 ∨ m = -1 := by
          have h1 : (m : ℚ) < 0 := by nlinarith [mul_self_nonneg ((0 : ℚ) - ((k : ℚ) + 1 / 2))]
          have h2 : (-3 : ℚ) < m := by nlinarith [mul_self_nonneg ((0 : ℚ) - ((k : ℚ) + 1 / 2))]
          have h1' : m < 0 := by exact_mod_cast h1
          have h2' : -3 < m := by exact_mod_cast h2
          omega
        rcases hk with rfl | rfl <;> rcases hm with rfl | rfl
        · right; simp only [Option.toList]; norm_num
        · norm_num at h00
        · left; simp only [Option.toList]; norm_num
        · norm_num at h00
  · rintro (h | h)
    · exact ⟨⟨0.5, -1.5, true⟩, by rw [h]; simp, by norm_num [inRange]⟩
    · exact ⟨⟨-0.5, -1.5, true⟩, by rw [h]; simp, by norm_num [inRange]⟩

/-- C8 (amended): for every fresh game (initial snake, UP, PLAYING, score 0,
apples as left by `initApples` under any draws) one tick returns a state whose
snake is [(0,-1),(0,0),(0,1)], unless the fresh game's apple is at (0.5,-1.5)
or (-0.5,-1.5), within 0.8 of the new head (0,-1): then the apple is eaten in
the same tick and the snake is [(0,-1),(0,0),(0,1),(0,2)]. -/
theorem first_tick (r r' : Rand) (hi : Int) :
    ∃ s1 r1, update r' (freshGame (initApples r initialGlobals).1.apples hi) = some (s1, r1) ∧
      (¬ ((initApples r initialGlobals).1.apples = [⟨0.5, -1.5, true⟩] ∨
          (initApples r initialGlobals).1.apples = [⟨-0.5, -1.5, true⟩]) →
        s1.snake = [⟨0, -1⟩, ⟨0, 0⟩, ⟨0, 1⟩]) ∧
      (((initApples r initialGlobals).1.apples = [⟨0.5, -1.5, true⟩] ∨
          (initApples r initialGlobals).1.apples = [⟨-0.5, -1.5, true⟩]) →
        s1.snake = [⟨0, -1⟩, ⟨0, 0⟩, ⟨0, 1⟩, ⟨0, 2⟩]) := by
  obtain ⟨s1, r1, hup, hkeep, hgrow⟩ :=
    freshGame_update (initApples r initialGlobals).1.apples hi r' (initApples_grid r initialGlobals)
  refine ⟨s1, r1, hup, fun hno => hkeep ?_, fun hyes => hgrow ?_⟩
  · intro a ha hin
    exact hno ((fresh_apple_in_range_iff r).mp ⟨a, ha, hin⟩)
  · exact (fresh_apple_in_range_iff r).mpr hyes

/-! ## C10: reversal within one tick -/

/-- With at most one directional input before the tick the rejection rule
works: for a snake on the integer grid the new head is never on the cell of
the old segment at index 1. -/
theorem single_input_no_reversal (s : Game) (head neck : Segment) (rest : List Segment)
    (d : Direction) (hplay : s.gameState = GameState.PLAYING)
    (hsnake : s.snake = head :: neck :: rest) (hdir : head = stepIn s.currentDir neck)
    (hx : IntCoord 4194304 neck.x) (hz : IntCoord 4194304 neck.z) :
    ∃ s', moveSnake (specialKeys (keyOf d) s) = some s' ∧ s'.snake.head? ≠ some neck := by
  have hnh : ∀ e c : Direction, newHead e (stepIn c neck) = stepIn e (stepIn c neck) := by
    intro e c
    obtain ⟨kx, hkx, hbx⟩ := hx
    obtain ⟨kz, hkz, hbz⟩ := hz
    rw [abs_le] at hbx hbz
    apply newHead_eq_stepIn
    · cases c
      · exact ⟨kx, by simp [stepIn, hkx], by rw [abs_le]; constructor <;> omega⟩
      · exact ⟨kx, by simp [stepIn, hkx], by rw [abs_le]; constructor <;> omega⟩
      · exact ⟨kx - 1, by simp [stepIn, hkx], by rw [abs_le]; constructor <;> omega⟩
      · exact ⟨kx + 1, by simp [stepIn, hkx], by rw [abs_le]; constructor <;> omega⟩
    · cases c
      · exact ⟨kz - 1, by simp [stepIn, hkz], by rw [abs_le]; constructor <;> omega⟩
      · exact ⟨kz + 1, by simp [stepIn, hkz], by rw [abs_le]; constructor <;> omega⟩
      · exact ⟨kz, by simp [stepIn, hkz], by rw [abs_le]; constructor <;> omega⟩
      · exact ⟨kz, by simp [stepIn, hkz], by rw [abs_le]; constructor <;> omega⟩
  obtain ⟨gs, cd, sn, ap, sc, hs⟩ := s
  simp only at hplay hsnake hdir
  subst hplay hsnake hdir
  obtain ⟨nx, nz⟩ := neck
  cases cd <;> cases d <;>
    simp [specialKeys, keyOf, moveSnake, hnh, GLUT_KEY_UP, GLUT_KEY_DOWN, GLUT_KEY_LEFT,
      GLUT_KEY_RIGHT] <;> simp [stepIn] <;> intro h <;> linarith

/-- C10 (failing input): in the fresh game heading UP, with head (0,0) and
the segment (0,1) behind it, the inputs LEFT then DOWN before the tick are both
accepted; the tick then moves the head onto (0,1), the cell of the old segment
at index 1, and ends the game by self collision. -/
theorem double_turn_reverses (r : Rand) :
    reversalState.gameState = GameState.PLAYING ∧
    reversalState.snake = [⟨0, 0⟩, ⟨0, 1⟩, ⟨0, 2⟩] ∧
    (⟨0, 0⟩ : Segment) = stepIn reversalState.currentDir ⟨0, 1⟩ ∧
    (applyInputs [Direction.LEFT, Direction.DOWN] reversalState).currentDir = Direction.DOWN ∧
    (∃ s', moveSnake (applyInputs [Direction.LEFT, Direction.DOWN] reversalState) = some s' ∧
      s'.snake.head? = some ⟨0, 1⟩ ∧ reversalState.snake[1]? = some ⟨0, 1⟩) ∧
    (∃ s1 r1, update r (applyInputs [Direction.LEFT, Direction.DOWN] reversalState)
        = some (s1, r1) ∧ s1.gameState = GameState.GAME_OVER) := by
  have hin : applyInputs [Direction.LEFT, Direction.DOWN] reversalState =
      { reversalState with currentDir := Direction.DOWN } := by
    simp [applyInputs, specialKeys, keyOf, reversalState, freshGame, GLUT_KEY_UP, GLUT_KEY_DOWN,
      GLUT_KEY_LEFT, GLUT_KEY_RIGHT]
  have hmoved : ({ ({ reversalState with currentDir := Direction.DOWN } : Game) with
      snake := stepIn Direction.DOWN ⟨0, 0⟩ ::
        ([⟨0, 0⟩, ⟨0, 1⟩, ⟨0, 2⟩] : List Segment).dropLast } : Game) =
      { reversalState with currentDir := Direction.DOWN,
                           snake := [⟨0, 1⟩, ⟨0, 0⟩, ⟨0, 1⟩] } := by
    simp [reversalState, freshGame, stepIn, List.dropLast]
  have hscan : appleScan ⟨0, 1⟩ [] [⟨4.5, 4.5, true⟩] = (false, [⟨4.5, 4.5, true⟩]) := by
    rcases appleScan_spec ⟨0, 1⟩ [⟨4.5, 4.5, true⟩] [] ⟨0, by norm_num, by norm_num⟩
        ⟨1, by norm_num, by norm_num⟩ (by
          intro a ha
          rw [List.mem_singleton] at ha
          subst ha
          exact ⟨⟨4, by norm_num, by norm_num, by norm_num⟩,
            ⟨4, by norm_num, by norm_num, by norm_num⟩⟩) with
      ⟨pre, a, post, hap, hin, _, _⟩ | ⟨_, h⟩
    · have hmem : a ∈ ([⟨4.5, 4.5, true⟩] : List Apple) := by rw [hap]; simp
      rw [List.mem_singleton] at hmem
      subst hmem
      norm_num [inRange] at hin
    · simpa using h
  have h0 : IntCoord 16777215 (0 : ℚ) := ⟨0, by norm_num, by norm_num⟩
  refine ⟨rfl, rfl, ?_, ?_, ?_, ?_⟩
  · simp [reversalState, freshGame, stepIn]
  · rw [hin]
  · rw [hin, moveSnake_eq _ ⟨0, 0⟩ [⟨0, 1⟩, ⟨0, 2⟩] rfl rfl h0 h0]
    exact ⟨_, rfl, by simp [stepIn, List.dropLast], rfl⟩
  · rw [hin, update_eq r _ ⟨0, 0⟩ [⟨0, 1⟩, ⟨0, 2⟩] rfl rfl h0 h0]
    refine ⟨_, _, rfl, ?_⟩
    simp only
    rw [hmoved, checkAppleCollision_missed r _ ⟨0, 1⟩ [⟨0, 0⟩, ⟨0, 1⟩] rfl rfl _ hscan]
    simp [checkGameOver, checkSelfCollision, checkWallCollision, reversalState, freshGame]

/-! ## The invariant of the event loop (C11, C12, C13) -/

theorem adjacent_stepIn (d : Direction) (p : Segment) : adjacent (stepIn d p) p := by
  cases d <;> simp [adjacent, stepIn]

theorem adjacent_ne (p q : Segment) (h : adjacent p q) : p ≠ q := by
  rintro rfl
  rcases h with ⟨h, _⟩ | ⟨_, h⟩ <;> simp at h

/-- The segment appended by growth is adjacent to the old tail when the last
two segments are adjacent. -/
theorem adjacent_extrapolate (b t : Segment) (h : adjacent b t) :
    adjacent t ⟨t.x + (t.x - b.x), t.z + (t.z - b.z)⟩ := by
  rcases h with ⟨hx, hz⟩ | ⟨hx, hz⟩
  · left
    refine ⟨?_, by simp [hz]⟩
    rw [show t.x - (t.x + (t.x - b.x)) = b.x - t.x by ring]
    exact hx
  · right
    refine ⟨by simp [hx], ?_⟩
    rw [show t.z - (t.z + (t.z - b.z)) = b.z - t.z by ring]
    exact hz

theorem initialSnake_chain : List.Chain' adjacent initialSnake := by
  simp [initialSnake, adjacent, List.chain'_cons]
  norm_num

/-- A list of two or more elements ends in two elements. -/
theorem exists_two_last {α : Type} (l : List α) (h : 2 ≤ l.length) :
    ∃ pre b t, l = pre ++ [b, t] := by
  have hne : l ≠ [] := by
    intro h0; rw [h0] at h; simp at h
  have hne' : l.dropLast ≠ [] := by
    intro h0
    have := congrArg List.length h0
    simp at this
    omega
  refine ⟨l.dropLast.dropLast, l.dropLast.getLast hne', l.getLast hne, ?_⟩
  have h1 := List.dropLast_append_getLast hne
  have h2 := List.dropLast_append_getLast hne'
  calc l = l.dropLast ++ [l.getLast hne] := h1.symm
    _ = (l.dropLast.dropLast ++ [l.dropLast.getLast hne']) ++ [l.getLast hne] := by rw [h2]
    _ = l.dropLast.dropLast ++ [l.dropLast.getLast hne', l.getLast hne] := by simp

/-- Only `currentDir` can change in `specialKeys`. -/
theorem specialKeys_frame (key : Int) (s : Game) :
    ∃ d, specialKeys key s = { s with currentDir := d } := by
  unfold specialKeys
  split_ifs <;> first | exact ⟨s.currentDir, rfl⟩ | exact ⟨_, rfl⟩

/-- Only `gameState` can change in `checkGameOver`. -/
theorem checkGameOver_frame (s : Game) :
    ∃ g, checkGameOver s = { s with gameState := g } := by
  unfold checkGameOver
  split
  · exact ⟨_, rfl⟩
  · exact ⟨s.gameState, rfl⟩

theorem GameInv_start (r : Rand) : GameInv (startGame r).1 := by
  obtain ⟨spawned, hlen, hsp⟩ := spawnApple_appends r { initialGlobals with apples := [] }
  simp only [startGame, initApples]
  rw [hsp]
  refine ⟨?_, ?_, ?_, initialSnake_chain, ?_⟩
  · simp [initialGlobals, initialSnake]
  · simp [initialGlobals]
  · simp [initialGlobals]
  · simpa using hlen

theorem initialSnake_int : ∀ seg ∈ initialSnake, IntCoord 10 seg.x ∧ IntCoord 10 seg.z := by
  intro seg hseg
  simp only [initialSnake, List.mem_cons, List.mem_singleton, List.not_mem_nil,
    or_false] at hseg
  rcases hseg with rfl | rfl | rfl
  · exact ⟨⟨0, by norm_num, by norm_num⟩, ⟨0, by norm_num, by norm_num⟩⟩
  · exact ⟨⟨0, by norm_num, by norm_num⟩, ⟨1, by norm_num, by norm_num⟩⟩
  · exact ⟨⟨0, by norm_num, by norm_num⟩, ⟨2, by norm_num, by norm_num⟩⟩

/-- A state with the initial snake and apples on cell centres has the grid
facts. -/
theorem GridInv_initial (g : GameState) (d : Direction) (apples : List Apple) (sc hi : Int)
    (happles : ∀ a ∈ apples, HalfCoord 8 a.x ∧ HalfCoord 8 a.z) :
    GridInv { gameState := g, currentDir := d, snake := initialSnake, apples := apples,
              score := sc, highScore := hi } := by
  refine ⟨⟨?_, ?_, happles⟩, ?_⟩
  · intro seg hseg
    exact ⟨(initialSnake_int seg hseg).1.widen (by norm_num),
      (initialSnake_int seg hseg).2.widen (by norm_num)⟩
  · intro seg hseg
    exact initialSnake_int seg (List.mem_of_mem_dropLast hseg)
  · intro _ head hhead
    simp only [initialSnake, List.head?_cons, Option.mem_def, Option.some.injEq] at hhead
    subst hhead
    exact ⟨⟨0, by norm_num, by norm_num⟩, ⟨0, by norm_num, by norm_num⟩⟩

theorem GridInv_start (r : Rand) : GridInv (startGame r).1 := by
  obtain ⟨spawned, _, hfar, hsp⟩ :=
    spawnApple_appends_far r { initialGlobals with apples := [] }
  simp only [startGame, initApples]
  rw [hsp]
  apply GridInv_initial
  intro a ha
  simp only [List.nil_append] at ha
  exact ⟨(hfar a ha).2.1, (hfar a ha).2.2.1⟩

theorem GameInv_specialKeys (key : Int) (s : Game) (h : GameInv s) :
    GameInv (specialKeys key s) := by
  obtain ⟨d, hd⟩ := specialKeys_frame key s
  rw [hd]
  exact h

theorem GridInv_specialKeys (key : Int) (s : Game) (h : GridInv s) :
    GridInv (specialKeys key s) := by
  obtain ⟨d, hd⟩ := specialKeys_frame key s
  rw [hd]
  exact h

theorem GameInv_checkGameOver (s : Game) (h : GameInv s) : GameInv (checkGameOver s) := by
  obtain ⟨g, hg⟩ := checkGameOver_frame s
  rw [hg]
  exact h

/-- After `checkGameOver` a state that is still PLAYING has its head strictly
inside the walls. -/
theorem GridInv_checkGameOver (s : Game) (h : GridPre s) : GridInv (checkGameOver s) := by
  unfold checkGameOver
  split
  · exact ⟨h, fun hp => by simp at hp⟩
  · next hno =>
    refine ⟨h, ?_⟩
    intro _ head hhead
    cases hs : s.snake with
    | nil => rw [hs] at hhead; simp at hhead
    | cons a l =>
      rw [hs] at hhead
      simp only [List.head?_cons, Option.mem_def, Option.some.injEq] at hhead
      subst hhead
      have hwall : checkWallCollision s = false := by
        cases hw : checkWallCollision s
        · rfl
        · rw [hw] at hno; simp at hno
      simp only [checkWallCollision, hs, decide_eq_false_iff_not, not_or, not_le, ge_iff_le]
        at hwall
      obtain ⟨hx1, hx2, hz1, hz2⟩ := hwall
      obtain ⟨⟨kx, hkx, _⟩, ⟨kz, hkz, _⟩⟩ := h.1 a (by rw [hs]; simp)
      rw [hkx] at hx1 hx2
      rw [hkz] at hz1 hz2
      have hx1i : -10 < kx := by exact_mod_cast hx1
      have hx2i : kx < 10 := by exact_mod_cast hx2
      have hz1i : -10 < kz := by exact_mod_cast hz1
      have hz2i : kz < 10 := by exact_mod_cast hz2
      exact ⟨⟨kx, hkx, by rw [abs_le]; constructor <;> omega⟩,
        ⟨kz, hkz, by rw [abs_le]; constructor <;> omega⟩⟩

/-- The state of `resetGame`, with its apples on cell centres. -/
theorem resetGame_grid (r : Rand) (s : Game) :
    ∃ spawned : List Apple, spawned.length ≤ 1 ∧
      (∀ a ∈ spawned, HalfCoord 8 a.x ∧ HalfCoord 8 a.z) ∧
      (resetGame r s).1 =
        { gameState := GameState.PLAYING, currentDir := Direction.UP, snake := initialSnake,
          apples := spawned, score := 0, highScore := s.highScore } := by
  obtain ⟨spawned, hlen, hfar, hsp⟩ := spawnApple_appends_far r
    { s with snake := initialSnake, currentDir := Direction.UP, apples := [] }
  refine ⟨spawned, hlen, fun a ha => ⟨(hfar a ha).2.1, (hfar a ha).2.2.1⟩, ?_⟩
  simp only [resetGame, initApples]
  rw [hsp]
  rfl

theorem GameInv_keyboard (key : Nat) (r : Rand) (s : Game) (h : GameInv s) :
    GameInv (keyboard key r s).1 := by
  unfold keyboard
  split
  · obtain ⟨spawned, hlen, hres⟩ := resetGame_eq r s
    rw [hres]
    refine ⟨?_, le_refl _, ?_, initialSnake_chain, hlen⟩
    · simp [initialSnake]
    · exact le_trans h.2.1 h.2.2.1
  · exact h

theorem GridInv_keyboard (key : Nat) (r : Rand) (s : Game) (h : GridInv s) :
    GridInv (keyboard key r s).1 := by
  unfold keyboard
  split
  · obtain ⟨spawned, _, hgrid, hres⟩ := resetGame_grid r s
    rw [hres]
    exact GridInv_initial _ _ _ _ _ hgrid
  · exact h

/-- The step of a head inside the walls is computed exactly and stays on the
integer grid up to the walls. -/
theorem stepIn_grid (d : Direction) (head : Segment)
    (hx : IntCoord 9 head.x) (hz : IntCoord 9 head.z) :
    newHead d head = stepIn d head ∧
      IntCoord 10 (stepIn d head).x ∧ IntCoord 10 (stepIn d head).z := by
  refine ⟨newHead_eq_stepIn d head (hx.widen (by norm_num)) (hz.widen (by norm_num)), ?_⟩
  obtain ⟨kx, hkx, hbx⟩ := hx
  obtain ⟨kz, hkz, hbz⟩ := hz
  rw [abs_le] at hbx hbz
  cases d
  · exact ⟨⟨kx, by simp [stepIn, hkx], by rw [abs_le]; constructor <;> omega⟩,
      ⟨kz - 1, by simp [stepIn, hkz], by rw [abs_le]; constructor <;> omega⟩⟩
  · exact ⟨⟨kx, by simp [stepIn, hkx], by rw [abs_le]; constructor <;> omega⟩,
      ⟨kz + 1, by simp [stepIn, hkz], by rw [abs_le]; constructor <;> omega⟩⟩
  · exact ⟨⟨kx - 1, by simp [stepIn, hkx], by rw [abs_le]; constructor <;> omega⟩,
      ⟨kz, by simp [stepIn, hkz], by rw [abs_le]; constructor <;> omega⟩⟩
  · exact ⟨⟨kx + 1, by simp [stepIn, hkx], by rw [abs_le]; constructor <;> omega⟩,
      ⟨kz, by simp [stepIn, hkz], by rw [abs_le]; constructor <;> omega⟩⟩

/-- The move of `moveSnake` keeps the invariant. -/
theorem GameInv_moved (s : Game) (head : Segment) (rest : List Segment) (h : GameInv s)
    (hsnake : s.snake = head :: rest) :
    GameInv { s with snake := stepIn s.currentDir head :: (head :: rest).dropLast } := by
  obtain ⟨hlen, h0, hhi, hchain, hap⟩ := h
  rw [hsnake] at hlen hchain
  refine ⟨?_, h0, hhi, ?_, hap⟩
  · rw [← hlen]; simp
  · apply List.Chain'.cons'
    · exact hchain.init
    · intro y hy
      cases rest with
      | nil => simp at hy
      | cons n rest' =>
        simp only [List.dropLast_cons₂, List.head?_cons, Option.mem_def, Option.some.injEq] at hy
        subst hy
        exact adjacent_stepIn _ _

/-- After the move of a PLAYING state every segment is on the integer grid up
to the walls. -/
theorem GridInv_moved (s : Game) (head : Segment) (rest : List Segment) (h : GridInv s)
    (hplay : s.gameState = GameState.PLAYING) (hsnake : s.snake = head :: rest) :
    ∀ seg ∈ stepIn s.currentDir head :: (head :: rest).dropLast,
      IntCoord 10 seg.x ∧ IntCoord 10 seg.z := by
  have hhead := h.2 hplay head (by rw [hsnake]; simp)
  intro seg hseg
  rw [List.mem_cons] at hseg
  rcases hseg with rfl | hseg
  · exact (stepIn_grid s.currentDir head hhead.1 hhead.2).2
  · rw [← hsnake] at hseg
    exact h.1.2.1 seg hseg

/-- The apple check of a PLAYING state whose segments are on the integer grid
up to the walls keeps the invariant. -/
theorem GameInv_checkAppleCollision (r : Rand) (s : Game) (h : GameInv s)
    (hgrid : ∀ seg ∈ s.snake, IntCoord 10 seg.x ∧ IntCoord 10 seg.z)
    (happles : ∀ a ∈ s.apples, HalfCoord 8 a.x ∧ HalfCoord 8 a.z)
    (hplay : s.gameState = GameState.PLAYING) :
    GameInv (checkAppleCollision r s).1 ∧ GridPre (checkAppleCollision r s).1 := by
  obtain ⟨hlen, h0, hhi, hchain, hap⟩ := h
  have hlen2 : 2 ≤ s.snake.length := by omega
  obtain ⟨pre, b, t, hsplit⟩ := exists_two_last s.snake hlen2
  obtain ⟨head, rest, hsnake⟩ : ∃ head rest, s.snake = head :: rest := by
    cases hs : s.snake with
    | nil => rw [hs] at hlen2; simp at hlen2
    | cons a l => exact ⟨a, l, rfl⟩
  have hb := hgrid b (by rw [hsplit]; simp)
  have ht := hgrid t (by rw [hsplit]; simp)
  have hwide : ∀ seg ∈ s.snake, IntCoord 30 seg.x ∧ IntCoord 30 seg.z := fun seg hseg =>
    ⟨(hgrid seg hseg).1.widen (by norm_num), (hgrid seg hseg).2.widen (by norm_num)⟩
  rcases appleScan_touches head s.apples [] with ⟨p, a, q, hapl, _, _, hscan⟩ | ⟨_, hscan⟩
  · obtain ⟨spawned, hsl, hsp, hres⟩ :=
      checkAppleCollision_eaten r s head rest hplay hsnake _ hscan
    rw [hres]
    have hpq : p = [] ∧ q = [] := by
      rw [hapl] at hap
      simp only [List.length_append, List.length_cons] at hap
      constructor
      · apply List.eq_nil_of_length_eq_zero; omega
      · apply List.eq_nil_of_length_eq_zero; omega
    have hseg : ∀ (l : List Segment) (hl : l ≠ []), l = pre ++ [b, t] →
        newSegment l hl = ⟨t.x + (t.x - b.x), t.z + (t.z - b.z)⟩ := by
      intro l hl he; subst he
      exact newSegment_extrapolate pre b t hl (hb.1.widen (by norm_num)) (hb.2.widen (by norm_num))
        (ht.1.widen (by norm_num)) (ht.2.widen (by norm_num))
    have hbt : adjacent b t := by
      rw [hsplit] at hchain
      have := (List.chain'_append.mp hchain).2.1
      exact List.chain'_pair.mp this
    have hnew : IntCoord 30 (t.x + (t.x - b.x)) ∧ IntCoord 30 (t.z + (t.z - b.z)) := by
      obtain ⟨⟨bx, hbx, hbx'⟩, ⟨bz, hbz, hbz'⟩⟩ := hb
      obtain ⟨⟨tx, htx, htx'⟩, ⟨tz, htz, htz'⟩⟩ := ht
      rw [abs_le] at hbx' hbz' htx' htz'
      exact ⟨⟨tx + (tx - bx), by rw [hbx, htx]; push_cast; ring,
          by rw [abs_le]; constructor <;> omega⟩,
        ⟨tz + (tz - bz), by rw [hbz, htz]; push_cast; ring,
          by rw [abs_le]; constructor <;> omega⟩⟩
    refine ⟨⟨?_, ?_, ?_, ?_, ?_⟩, ?_, ?_, ?_⟩
    · simp only [List.length_append, List.length_singleton]
      push_cast
      omega
    · show (0 : Int) ≤ s.score + 1
      omega
    · exact le_max_right _ _
    · simp only
      rw [hseg _ _ hsplit]
      apply List.chain'_append.mpr
      refine ⟨hchain, List.chain'_singleton _, ?_⟩
      intro x hx y hy
      have hlast : (pre ++ [b, t]).getLast? = some t := by simp
      rw [hsplit, hlast] at hx
      simp only [Option.mem_def, Option.some.injEq] at hx
      simp only [List.head?_cons, Option.mem_def, Option.some.injEq] at hy
      rw [← hx, ← hy]
      exact adjacent_extrapolate b t hbt
    · simp only [hpq.1, hpq.2, List.filter_nil, List.append_nil, List.nil_append]
      exact hsl
    · intro seg hmem
      simp only at hmem
      rw [hseg _ _ hsplit, List.mem_append, List.mem_singleton] at hmem
      rcases hmem with hmem | rfl
      · exact hwide seg hmem
      · exact hnew
    · intro seg hmem
      simp only [List.dropLast_concat] at hmem
      exact hgrid seg hmem
    · intro n hn
      simp only [hpq.1, hpq.2, List.filter_nil, List.append_nil, List.nil_append] at hn
      exact ⟨(hsp n hn).2.1, (hsp n hn).2.2.1⟩
  · rw [checkAppleCollision_missed r s head rest hplay hsnake _ hscan]
    refine ⟨⟨hlen, h0, hhi, hchain, ?_⟩, hwide, ?_, ?_⟩
    · simp only [List.nil_append]
      exact le_trans (List.length_filter_le _ _) hap
    · intro seg hmem
      exact hgrid seg (List.mem_of_mem_dropLast hmem)
    · intro n hn
      simp only [List.nil_append] at hn
      exact happles n (List.mem_of_mem_filter hn)

/-- A tick from a state with the invariant returns a state with the
invariant. -/
theorem GameInv_update (r : Rand) (s : Game) (h : GameInv s) (hg : GridInv s) :
    ∃ s' r', update r s = some (s', r') ∧ GameInv s' ∧ GridInv s' := by
  by_cases hplay : s.gameState = GameState.PLAYING
  · obtain ⟨head, rest, hsnake⟩ : ∃ head rest, s.snake = head :: rest := by
      cases hs : s.snake with
      | nil =>
        have := h.1
        rw [hs] at this
        simp at this
        have := h.2.1
        omega
      | cons a l => exact ⟨a, l, rfl⟩
    have hhead := hg.2 hplay head (by rw [hsnake]; simp)
    rw [update_eq r s head rest hplay hsnake (hhead.1.widen (by norm_num))
      (hhead.2.widen (by norm_num))]
    refine ⟨_, _, rfl, ?_⟩
    have hboth := GameInv_checkAppleCollision r _ (GameInv_moved s head rest h hsnake)
      (GridInv_moved s head rest hg hplay hsnake) hg.1.2.2 hplay
    exact ⟨GameInv_checkGameOver _ hboth.1, GridInv_checkGameOver _ hboth.2⟩
  · exact ⟨s, r, by simp [update, hplay], h, hg⟩

/-- Every callback from a state with the invariant returns a state with the
invariant. -/
theorem GameInv_step (e : Event) (r : Rand) (s : Game) (h : GameInv s) (hg : GridInv s) :
    ∃ s' r', step e r s = some (s', r') ∧ GameInv s' ∧ GridInv s' := by
  cases e with
  | tick => exact GameInv_update r s h hg
  | special key => exact ⟨_, _, rfl, GameInv_specialKeys key s h, GridInv_specialKeys key s hg⟩
  | keyboard key => exact ⟨_, _, rfl, GameInv_keyboard key r s h, GridInv_keyboard key r s hg⟩

/-- Every finite sequence of callbacks from a state with the invariant runs
to the end and ends in a state with the invariant. -/
theorem GameInv_run (events : List Event) (r : Rand) (s : Game) (h : GameInv s)
    (hg : GridInv s) :
    ∃ s' r', run events r s = some (s', r') ∧ GameInv s' ∧ GridInv s' := by
  induction events generalizing r s with
  | nil => exact ⟨s, r, rfl, h, hg⟩
  | cons e es ih =>
    obtain ⟨s1, r1, hstep, h1, hg1⟩ := GameInv_step e r s h hg
    obtain ⟨s2, r2, hrun, h2⟩ := ih r1 s1 h1 hg1
    exact ⟨s2, r2, by simp only [run, hstep, hrun], h2⟩

/-- Consecutive elements of a chain, by index. -/
theorem chain_getElem {α : Type} (R : α → α → Prop) (l : List α) (h : List.Chain' R l)
    (i : Nat) (p q : α) (hp : l[i]? = some p) (hq : l[i + 1]? = some q) : R p q := by
  induction l generalizing i with
  | nil => simp at hp
  | cons a l' ih =>
    cases i with
    | zero =>
      cases l' with
      | nil => simp at hq
      | cons c l'' =>
        simp only [List.getElem?_cons_zero, Option.some.injEq, zero_add,
          List.getElem?_cons_succ] at hp hq
        subst hp hq
        exact (List.chain'_cons.mp h).1
    | succ j =>
      simp only [List.getElem?_cons_succ] at hp hq
      exact ih (List.chain'_cons'.mp h).2 j hp hq

/-! ## C11: the apple count -/

/-- Counterexample to C11 (its negation): no sequence of callbacks and no
sequence of draws leads from the state after `init()` to a state with more
than one apple. -/
theorem apple_count_never_above_one :
    ¬ ∃ (events : List Event) (r : Rand) (s : Game) (r' : Rand),
      run events (startGame r).2 (startGame r).1 = some (s, r') ∧ 1 < s.apples.length := by
  rintro ⟨events, r, s, r', hrun, hgt⟩
  obtain ⟨s2, r2, hrun2, hinv, _⟩ := GameInv_run events (startGame r).2 (startGame r).1
    (GameInv_start r) (GridInv_start r)
  rw [hrun] at hrun2
  simp only [Option.some.injEq, Prod.mk.injEq] at hrun2
  obtain ⟨rfl, _⟩ := hrun2
  have := hinv.2.2.2.2
  omega

/-- C11 (amended): from the state after `init()`, every sequence of ticks,
key inputs and restarts under every sequence of draws runs to a state whose
apple collection holds at most one apple, below MAX_APPLES: an eaten apple is
replaced by at most one spawned apple. -/
theorem apple_count_at_most_one (events : List Event) (r : Rand) :
    ∃ s r', run events (startGame r).2 (startGame r).1 = some (s, r') ∧
      s.apples.length ≤ 1 ∧ s.apples.length < MAX_APPLES := by
  obtain ⟨s, r', hrun, hinv, _⟩ := GameInv_run events (startGame r).2 (startGame r).1
    (GameInv_start r) (GridInv_start r)
  have hle := hinv.2.2.2.2
  refine ⟨s, r', hrun, hle, ?_⟩
  unfold MAX_APPLES
  omega

/-! ## C12: adjacency of consecutive segments -/

/-- C12: from the state after `init()`, every sequence of ticks, key inputs
and restarts under every sequence of draws runs to a state in which every two
consecutive snake segments differ by exactly 1 in one coordinate and by 0 in
the other, hence are distinct; the snake has more than one segment, also
after the `moveSnake` of a further tick, so growth never takes the
single-segment branch. -/
theorem snake_adjacency (events : List Event) (r : Rand) :
    ∃ s r', run events (startGame r).2 (startGame r).1 = some (s, r') ∧
      (∀ i p q, s.snake[i]? = some p → s.snake[i + 1]? = some q → adjacent p q ∧ p ≠ q) ∧
      1 < s.snake.length ∧
      (∃ m, moveSnake s = some m ∧ 1 < m.snake.length) := by
  obtain ⟨s, r', hrun, ⟨hlen, h0, _, hchain, _⟩, _⟩ :=
    GameInv_run events (startGame r).2 (startGame r).1 (GameInv_start r) (GridInv_start r)
  have hlen1 : 1 < s.snake.length := by omega
  refine ⟨s, r', hrun, ?_, hlen1, ?_⟩
  · intro i p q hp hq
    have hadj := chain_getElem adjacent s.snake hchain i p q hp hq
    exact ⟨hadj, adjacent_ne p q hadj⟩
  · by_cases hplay : s.gameState = GameState.PLAYING
    · cases hs : s.snake with
      | nil => rw [hs] at hlen1; simp at hlen1
      | cons head rest =>
        rw [moveSnake_newHead s head rest hplay hs]
        refine ⟨_, rfl, ?_⟩
        rw [hs] at hlen1
        simpa using hlen1
    · exact ⟨s, by simp [moveSnake, hplay], hlen1⟩

/-! ## C13: length and score -/

/-- C13: from the state after `init()` (three segments, score 0, high score
0), every sequence of ticks, key inputs and restarts under every sequence of
draws runs to the end, to a state with snake length = score + 3 and
0 ≤ score ≤ highScore; its snake is not empty, and `moveSnake` returns a state
with a non-empty snake there. -/
theorem length_score_coupling (events : List Event) (r : Rand) :
    ∃ s r', run events (startGame r).2 (startGame r).1 = some (s, r') ∧
      (s.snake.length : Int) = s.score + 3 ∧ 0 ≤ s.score ∧ s.score ≤ s.highScore ∧
      s.snake ≠ [] ∧ (∃ m, moveSnake s = some m ∧ m.snake ≠ []) := by
  obtain ⟨s, r', hrun, ⟨hlen, h0, hhi, _, _⟩, _⟩ :=
    GameInv_run events (startGame r).2 (startGame r).1 (GameInv_start r) (GridInv_start r)
  have hne : s.snake ≠ [] := by
    intro hnil
    rw [hnil] at hlen
    simp at hlen
    omega
  refine ⟨s, r', hrun, hlen, h0, hhi, hne, ?_⟩
  by_cases hplay : s.gameState = GameState.PLAYING
  · cases hs : s.snake with
    | nil => exact absurd hs hne
    | cons head rest =>
      rw [moveSnake_newHead s head rest hplay hs]
      exact ⟨_, rfl, by simp⟩
  · exact ⟨s, by simp [moveSnake, hplay], hne⟩

/-! ## C14: eating can end the game -/

/-- C14: there is a PLAYING state with pairwise distinct, consecutively
adjacent segments strictly inside the walls and one active apple on a
half-integer cell centre, such that for all draws one tick moves the snake to
[(2,0),(2,1),(1,1),(0,1),(0,0),(1,0)] (pairwise distinct), eats the apple and
appends `t + (t - b)` for the last two segments `b, t`, which is the head
(2,0); the tick ends in GAME_OVER with no wall collision, while the same state
without the apple stays PLAYING after the tick. -/
theorem eating_can_end_game :
    ∃ (s : Game) (a : Apple) (moved : Game) (pre : List Segment) (b t : Segment),
      s.gameState = GameState.PLAYING ∧ s.snake.Nodup ∧ List.Chain' adjacent s.snake ∧
      (∀ seg ∈ s.snake, -10 < seg.x ∧ seg.x < 10 ∧ -10 < seg.z ∧ seg.z < 10) ∧
      s.apples = [a] ∧ a.active = true ∧ (∃ k m : Int, a.x = k + 0.5 ∧ a.z = m + 0.5) ∧
      moveSnake s = some moved ∧
      moved.snake = [⟨2, 0⟩, ⟨2, 1⟩, ⟨1, 1⟩, ⟨0, 1⟩, ⟨0, 0⟩, ⟨1, 0⟩] ∧
      moved.snake.Nodup ∧ moved.snake = pre ++ [b, t] ∧
      (∀ r : Rand, ∃ s1 r1, update r s = some (s1, r1) ∧
        s1.score = s.score + 1 ∧
        s1.snake = moved.snake ++ [⟨t.x + (t.x - b.x), t.z + (t.z - b.z)⟩] ∧
        s1.snake.head? = some ⟨t.x + (t.x - b.x), t.z + (t.z - b.z)⟩ ∧
        checkWallCollision s1 = false ∧
        s1.gameState = GameState.GAME_OVER) ∧
      (∀ r : Rand, ∃ s2 r2, update r { s with apples := [] } = some (s2, r2) ∧
        s2.snake = moved.snake ∧ s2.gameState = GameState.PLAYING) := by
  have h2 : IntCoord 16777215 (2 : ℚ) := ⟨2, by norm_num, by norm_num⟩
  have h1 : IntCoord 16777215 (1 : ℚ) := ⟨1, by norm_num, by norm_num⟩
  have hscan : appleScan ⟨2, 0⟩ [] [⟨2.5, -0.5, true⟩] = (true, []) := by
    rcases appleScan_spec ⟨2, 0⟩ [⟨2.5, -0.5, true⟩] [] ⟨2, by norm_num, by norm_num⟩
        ⟨0, by norm_num, by norm_num⟩ (by
          intro a ha
          rw [List.mem_singleton] at ha
          subst ha
          exact ⟨⟨2, by norm_num, by norm_num, by norm_num⟩,
            ⟨-1, by norm_num, by norm_num, by norm_num⟩⟩) with
      ⟨pre, a, post, hap, _, _, h⟩ | ⟨hnone, _⟩
    · have hlen := congrArg List.length hap
      simp only [List.length_singleton, List.length_append, List.length_cons,
        List.length_nil] at hlen
      have hpre : pre = [] := List.eq_nil_of_length_eq_zero (by omega)
      have hpost : post = [] := List.eq_nil_of_length_eq_zero (by omega)
      rw [h, hpre, hpost]
      rfl
    · exact absurd (by norm_num [inRange]) (hnone ⟨2.5, -0.5, true⟩ (by simp))
  have hseg : ∀ (l : List Segment) (hl : l ≠ []),
      l = [⟨2, 0⟩, ⟨2, 1⟩, ⟨1, 1⟩, ⟨0, 1⟩, ⟨0, 0⟩, ⟨1, 0⟩] → newSegment l hl = ⟨2, 0⟩ := by
    intro l hl he
    subst he
    refine (newSegment_extrapolate [⟨2, 0⟩, ⟨2, 1⟩, ⟨1, 1⟩, ⟨0, 1⟩] ⟨0, 0⟩ ⟨1, 0⟩ hl
      ⟨0, by norm_num, by norm_num⟩ ⟨0, by norm_num, by norm_num⟩
      ⟨1, by norm_num, by norm_num⟩ ⟨0, by norm_num, by norm_num⟩).trans ?_
    norm_num
  have hmove : ∀ ap : List Apple,
      ({ ({ biteState with apples := ap } : Game) with
          snake := stepIn ({ biteState with apples := ap } : Game).currentDir ⟨2, 1⟩ ::
            ([⟨2, 1⟩, ⟨1, 1⟩, ⟨0, 1⟩, ⟨0, 0⟩, ⟨1, 0⟩, ⟨1, -1⟩] : List Segment).dropLast } : Game) =
      { gameState := GameState.PLAYING, currentDir := Direction.UP,
        snake := [⟨2, 0⟩, ⟨2, 1⟩, ⟨1, 1⟩, ⟨0, 1⟩, ⟨0, 0⟩, ⟨1, 0⟩],
        apples := ap, score := 3, highScore := 3 } := by
    intro ap
    simp [biteState, stepIn, List.dropLast]
  refine ⟨biteState, ⟨2.5, -0.5, true⟩,
    { gameState := GameState.PLAYING, currentDir := Direction.UP,
      snake := [⟨2, 0⟩, ⟨2, 1⟩, ⟨1, 1⟩, ⟨0, 1⟩, ⟨0, 0⟩, ⟨1, 0⟩],
      apples := [⟨2.5, -0.5, true⟩], score := 3, highScore := 3 },
    [⟨2, 0⟩, ⟨2, 1⟩, ⟨1, 1⟩, ⟨0, 1⟩], ⟨0, 0⟩, ⟨1, 0⟩, rfl, ?_, ?_, ?_, rfl, rfl, ?_, ?_, rfl,
    ?_, rfl, ?_, ?_⟩
  · simp [biteState]
    norm_num
  · simp [biteState, adjacent, List.chain'_cons]
    norm_num
  · intro seg hseg'
    simp only [biteState, List.mem_cons, List.mem_singleton, List.not_mem_nil, or_false] at hseg'
    rcases hseg' with rfl | rfl | rfl | rfl | rfl | rfl <;> norm_num
  · exact ⟨2, -1, by norm_num, by norm_num⟩
  · rw [moveSnake_eq biteState ⟨2, 1⟩ [⟨1, 1⟩, ⟨0, 1⟩, ⟨0, 0⟩, ⟨1, 0⟩, ⟨1, -1⟩] rfl rfl h2 h1]
    exact congrArg some (hmove [⟨2.5, -0.5, true⟩])
  · simp
  · intro r
    rw [update_eq r biteState ⟨2, 1⟩ [⟨1, 1⟩, ⟨0, 1⟩, ⟨0, 0⟩, ⟨1, 0⟩, ⟨1, -1⟩] rfl rfl h2 h1]
    refine ⟨_, _, rfl, ?_⟩
    have hst := hmove [⟨2.5, -0.5, true⟩]
    simp only [biteState] at hst ⊢
    rw [hst]
    obtain ⟨spawned, _, _, hres⟩ := checkAppleCollision_eaten r
      { gameState := GameState.PLAYING, currentDir := Direction.UP,
        snake := [⟨2, 0⟩, ⟨2, 1⟩, ⟨1, 1⟩, ⟨0, 1⟩, ⟨0, 0⟩, ⟨1, 0⟩],
        apples := [⟨2.5, -0.5, true⟩], score := 3, highScore := 3 }
      ⟨2, 0⟩ [⟨2, 1⟩, ⟨1, 1⟩, ⟨0, 1⟩, ⟨0, 0⟩, ⟨1, 0⟩] rfl rfl [] hscan
    rw [hres]
    simp [hseg, checkGameOver, checkWallCollision, checkSelfCollision]
    norm_num
  · intro r
    have hscan0 : appleScan ⟨2, 0⟩ [] [] = (false, []) := rfl
    rw [update_eq r { biteState with apples := [] } ⟨2, 1⟩
      [⟨1, 1⟩, ⟨0, 1⟩, ⟨0, 0⟩, ⟨1, 0⟩, ⟨1, -1⟩] rfl rfl h2 h1]
    refine ⟨_, _, rfl, ?_⟩
    rw [hmove [], checkAppleCollision_missed r _ ⟨2, 0⟩ [⟨2, 1⟩, ⟨1, 1⟩, ⟨0, 1⟩, ⟨0, 0⟩, ⟨1, 0⟩]
      rfl rfl [] hscan0]
    simp [checkGameOver, checkWallCollision, checkSelfCollision]
    norm_num

end Snake3D
